import Mathlib

/-!
Verification of `y360_disk_url_owner` (URL normalization, API-client logic,
config masking, and the orchestrator loop) against its natural-language
specification.

Strings are modelled as `List Char`, matching Python `str` as a sequence of
Unicode code points.  Fallible Python code is modelled with `Except`:
`PyFailure.parseError` stands for the repository's `URLParseError`,
`PyFailure.valueError` for an escaping `ValueError` raised inside the
standard library (`urllib.parse.urlsplit`).

The relevant parts of CPython 3.11's `urllib/parse.py` (urlsplit, urlparse,
parse_qsl/parse_qs, unquote) are embedded below, since `url_parser.py`'s
behaviour is defined in terms of them.
-/

/-- The two kinds of exceptions that can escape `normalize_url`:
the repository's own `URLParseError`, and `ValueError` raised by
`urllib.parse.urlsplit` on an unbalanced bracket in the authority. -/
inductive PyFailure where
  | parseError (msg : List Char)
  | valueError (msg : List Char)
deriving DecidableEq, Repr

deriving instance DecidableEq for Except

/-- Python `str.isspace` / the character set stripped by `str.strip()`:
ASCII whitespace, the C1 and Unicode space code points. -/
def isPySpace (c : Char) : Bool :=
  let n := c.toNat
  n == 32 || n == 9 || n == 10 || n == 13 || n == 11 || n == 12 ||
  (28 ≤ n && n ≤ 31) || n == 0x85 || n == 0xA0 || n == 0x1680 ||
  (0x2000 ≤ n && n ≤ 0x200A) || n == 0x2028 || n == 0x2029 ||
  n == 0x202F || n == 0x205F || n == 0x3000

/-- Python `str.strip()` with no arguments: remove leading and trailing
whitespace. -/
def pyStrip (s : List Char) : List Char :=
  ((s.dropWhile isPySpace).reverse.dropWhile isPySpace).reverse

/-- CPython `urlsplit`: `_UNSAFE_URL_BYTES_TO_REMOVE = ['\t', '\r', '\n']`
are removed from the url wherever they occur. -/
def removeUnsafe (s : List Char) : List Char :=
  s.filter (fun c => !(c == '\t' || c == '\r' || c == '\n'))

/-- ASCII letter (Python `c.isascii() and c.isalpha()`). -/
def isAsciiAlpha (c : Char) : Bool :=
  (65 ≤ c.toNat && c.toNat ≤ 90) || (97 ≤ c.toNat && c.toNat ≤ 122)

/-- CPython `scheme_chars`: ASCII letters, digits, and `+`, `-`, `.`. -/
def schemeChar (c : Char) : Bool :=
  isAsciiAlpha c || (48 ≤ c.toNat && c.toNat ≤ 57) || c == '+' || c == '-' || c == '.'

/-- The scheme-splitting step of CPython `urlsplit`:
`i = url.find(':')`; if `i > 0`, `url[0]` is an ASCII letter and all of
`url[:i]` are scheme characters, the scheme is `url[:i].lower()` and the
remainder is `url[i+1:]`; otherwise the url is left intact with scheme `""`. -/
def splitScheme (url : List Char) : List Char × List Char :=
  let i := url.findIdx (fun c => c == ':')
  if 0 < i ∧ i < url.length ∧ isAsciiAlpha (url.headD ' ') = true ∧
      (url.take i).all schemeChar = true then
    ((url.take i).map Char.toLower, url.drop (i + 1))
  else ([], url)

/-- CPython `_splitnetloc(url, 2)`: the netloc is everything after the
leading `//` up to the first `/`, `?` or `#`; the rest (from that
delimiter on) is returned alongside. -/
def splitNetloc (url : List Char) : List Char × List Char :=
  let rest := url.drop 2
  let netloc := rest.takeWhile (fun c => !(c == '/' || c == '?' || c == '#'))
  (netloc, rest.drop netloc.length)

/-- Python `s.split(sep, 1)` viewed as a pair: the part before the first
occurrence of `sep`, and the part after it (empty when `sep` is absent,
matching how `urlsplit` leaves `query`/`fragment` empty). -/
def splitOnFirst (sep : Char) (s : List Char) : List Char × List Char :=
  let before := s.takeWhile (fun c => !(c == sep))
  (before, (s.drop before.length).drop 1)

/-- The result record of `urlsplit`/`urlparse` (the `params` field of
`ParseResult` is folded into `path` handling, see `urlparse` below). -/
structure SplitResult where
  scheme : List Char
  netloc : List Char
  path : List Char
  query : List Char
  fragment : List Char
deriving DecidableEq, Repr

/-- CPython 3.11 `urllib.parse.urlsplit`.  Raises `ValueError` ("Invalid
IPv6 URL") when the netloc contains `[` without `]` or vice versa.
CPython's `_checknetloc` additionally rejects non-ASCII netlocs that are
unstable under NFKC normalization; Unicode normalization tables are not
modelled here, so that check is a no-op in this embedding (all theorems
below that depend on the absence of `ValueError` restrict themselves to
ASCII inputs, where CPython's check is exactly a no-op). -/
def urlsplit (url0 : List Char) : Except PyFailure SplitResult :=
  let url1 := removeUnsafe url0
  let sp := splitScheme url1
  let scheme := sp.1
  let url2 := sp.2
  if url2.take 2 = "//".data then
    let nl := splitNetloc url2
    let netloc := nl.1
    let rest := nl.2
    if ('[' ∈ netloc ∧ ']' ∉ netloc) ∨ (']' ∈ netloc ∧ '[' ∉ netloc) then
      .error (.valueError "Invalid IPv6 URL".data)
    else
      let fr := splitOnFirst '#' rest
      let qu := splitOnFirst '?' fr.1
      .ok ⟨scheme, netloc, qu.1, qu.2, fr.2⟩
  else
    let fr := splitOnFirst '#' url2
    let qu := splitOnFirst '?' fr.1
    .ok ⟨scheme, [], qu.1, qu.2, fr.2⟩

/-- CPython `uses_params`: schemes whose path gets a `;params` split in
`urlparse`. -/
def usesParams : List (List Char) :=
  [[], "ftp".data, "hdl".data, "prospero".data, "http".data, "imap".data,
   "https".data, "shttp".data, "rtsp".data, "rtspu".data, "sip".data,
   "sips".data, "mms".data, "sftp".data, "tel".data]

/-- CPython `_splitparams`, returning only the path part: if the path
contains `/`, the params are whatever follows the first `;` at or after
the last `/`; otherwise whatever follows the first `;`.  (Only called when
a `;` is present, mirroring `urlparse`.) -/
def splitparamsPath (p : List Char) : List Char :=
  if p.contains '/' then
    let j := p.length - 1 - p.reverse.findIdx (fun c => c == '/')
    let rest := p.drop j
    let k := rest.findIdx (fun c => c == ';')
    if k < rest.length then p.take (j + k) else p
  else
    p.takeWhile (fun c => !(c == ';'))

/-- CPython `urlparse` = `urlsplit` plus the `;params` split of the path
for schemes in `uses_params`. -/
def urlparse (url : List Char) : Except PyFailure SplitResult :=
  match urlsplit url with
  | .error e => .error e
  | .ok r =>
      .ok { r with path := if usesParams.contains r.scheme && r.path.contains ';'
                           then splitparamsPath r.path else r.path }

/-- ASCII hex digit. -/
def isHexDigitChar (c : Char) : Bool :=
  (48 ≤ c.toNat && c.toNat ≤ 57) || (97 ≤ c.toNat && c.toNat ≤ 102) ||
  (65 ≤ c.toNat && c.toNat ≤ 70)

/-- Value of an ASCII hex digit. -/
def hexDigitVal (c : Char) : Nat :=
  if c.toNat ≤ 57 then c.toNat - 48
  else if 97 ≤ c.toNat then c.toNat - 87
  else c.toNat - 55

/-- UTF-8 encoding of one code point, as a byte (Nat) list. -/
def utf8Bytes (c : Char) : List Nat :=
  let n := c.toNat
  if n < 0x80 then [n]
  else if n < 0x800 then [0xC0 + n / 64, 0x80 + n % 64]
  else if n < 0x10000 then [0xE0 + n / 4096, 0x80 + (n / 64) % 64, 0x80 + n % 64]
  else [0xF0 + n / 262144, 0x80 + (n / 4096) % 64, 0x80 + (n / 64) % 64, 0x80 + n % 64]

/-- The byte string produced by CPython `unquote_to_bytes`: each valid
`%XX` escape contributes byte `XX`; a `%` not followed by two hex digits
stays literal; every other character contributes its UTF-8 bytes. -/
def percentDecodeBytes : List Char → List Nat
  | [] => []
  | '%' :: a :: b :: rest =>
    if isHexDigitChar a && isHexDigitChar b then
      (16 * hexDigitVal a + hexDigitVal b) :: percentDecodeBytes rest
    else utf8Bytes '%' ++ percentDecodeBytes (a :: b :: rest)
  | c :: rest => utf8Bytes c ++ percentDecodeBytes rest

/-- U+FFFD, the replacement character used by `errors='replace'`. -/
def replChar : Char := Char.ofNat 0xFFFD

/-- UTF-8 continuation byte. -/
def isCont (b : Nat) : Bool := 0x80 ≤ b && b ≤ 0xBF

/-- Lower bound of the first continuation byte (UTF-8 shortest-form and
surrogate restrictions, as enforced by CPython's decoder). -/
def cont1Lo (b : Nat) : Nat := if b == 0xE0 then 0xA0 else if b == 0xF0 then 0x90 else 0x80

/-- Upper bound of the first continuation byte. -/
def cont1Hi (b : Nat) : Nat := if b == 0xED then 0x9F else if b == 0xF4 then 0x8F else 0xBF

/-- UTF-8 decoding with `errors='replace'`: CPython substitutes one U+FFFD
per maximal subpart of an ill-formed subsequence. -/
def utf8DecodeReplace : List Nat → List Char
  | [] => []
  | b :: rest =>
    if b < 0x80 then Char.ofNat b :: utf8DecodeReplace rest
    else if 0xC2 ≤ b && b ≤ 0xDF then
      match rest with
      | [] => [replChar]
      | b1 :: rest1 =>
        if isCont b1 then
          Char.ofNat ((b - 0xC0) * 64 + (b1 - 0x80)) :: utf8DecodeReplace rest1
        else replChar :: utf8DecodeReplace (b1 :: rest1)
    else if 0xE0 ≤ b && b ≤ 0xEF then
      match rest with
      | [] => [replChar]
      | b1 :: rest1 =>
        if cont1Lo b ≤ b1 && b1 ≤ cont1Hi b then
          match rest1 with
          | [] => [replChar]
          | b2 :: rest2 =>
            if isCont b2 then
              Char.ofNat ((b - 0xE0) * 4096 + (b1 - 0x80) * 64 + (b2 - 0x80)) ::
                utf8DecodeReplace rest2
            else replChar :: utf8DecodeReplace (b2 :: rest2)
        else replChar :: utf8DecodeReplace (b1 :: rest1)
    else if 0xF0 ≤ b && b ≤ 0xF4 then
      match rest with
      | [] => [replChar]
      | b1 :: rest1 =>
        if cont1Lo b ≤ b1 && b1 ≤ cont1Hi b then
          match rest1 with
          | [] => [replChar]
          | b2 :: rest2 =>
            if isCont b2 then
              match rest2 with
              | [] => [replChar]
              | b3 :: rest3 =>
                if isCont b3 then
                  Char.ofNat ((b - 0xF0) * 262144 + (b1 - 0x80) * 4096 +
                      (b2 - 0x80) * 64 + (b3 - 0x80)) :: utf8DecodeReplace rest3
                else replChar :: utf8DecodeReplace (b3 :: rest3)
            else replChar :: utf8DecodeReplace (b2 :: rest2)
        else replChar :: utf8DecodeReplace (b1 :: rest1)
    else replChar :: utf8DecodeReplace rest

/-- CPython `urllib.parse.unquote` with default `utf-8`/`replace`:
a no-op without `%`, otherwise `%XX` escapes become bytes and the byte
string is decoded as UTF-8 with replacement.  (CPython decodes each
maximal ASCII run separately; since literal characters always contribute
complete, valid UTF-8 sequences, and no valid sequence can extend across
one, decoding the whole byte string at once is equivalent.) -/
def unquote (s : List Char) : List Char :=
  if s.contains '%' then utf8DecodeReplace (percentDecodeBytes s) else s

/-- Python `s.replace('+', ' ')`, applied by `parse_qsl` before unquoting. -/
def plusToSpace (s : List Char) : List Char :=
  s.map (fun c => if c == '+' then ' ' else c)

/-- CPython `parse_qsl` with default arguments (`keep_blank_values=False`,
separator `&`): split on `&`, drop empty fields, drop fields without `=`
or with an empty value, and form-decode name and value (`+` to space,
then percent-decode). -/
def parse_qsl (qs : List Char) : List (List Char × List Char) :=
  if qs.isEmpty then []
  else (qs.splitOn '&').filterMap (fun nv =>
    if nv.isEmpty then none
    else
      let name := nv.takeWhile (fun c => !(c == '='))
      match nv.drop name.length with
      | [] => none
      | _ :: value =>
        if value.isEmpty then none
        else some (unquote (plusToSpace name), unquote (plusToSpace value)))

/-- `parse_qs(qs)[key][0]`: the first value listed for `key`, if `key` is
present in the `parse_qs` dictionary (values are grouped per name in
encounter order, so the dictionary's first value for a name is the first
pair for that name in `parse_qsl`). -/
def firstParamValue (key : List Char) (prs : List (List Char × List Char)) :
    Option (List Char) :=
  match prs.find? (fun pr => pr.1 == key) with
  | some pr => some pr.2
  | none => none

/-- `[a-zA-Z0-9\-]`, the short-link token class of `url_parser.py`. -/
def tokenChar (c : Char) : Bool :=
  (65 ≤ c.toNat && c.toNat ≤ 90) || (97 ≤ c.toNat && c.toNat ≤ 122) ||
  (48 ≤ c.toNat && c.toNat ≤ 57) || c == '-'

/-- `[a-zA-Z0-9+/]`, the hash alphabet of `url_parser.py`. -/
def b64Char (c : Char) : Bool :=
  (65 ≤ c.toNat && c.toNat ≤ 90) || (97 ≤ c.toNat && c.toNat ≤ 122) ||
  (48 ≤ c.toNat && c.toNat ≤ 57) || c == '+' || c == '/'

/-- Whether a list starts with a short-link token character. -/
def headTokenChar : List Char → Bool
  | [] => false
  | c :: _ => tokenChar c

/-- The https spelling of the short-link stem (25 characters). -/
def shortHttps : List Char := "https://disk.yandex.ru/d/".data

/-- The http spelling of the short-link stem (24 characters). -/
def shortHttp : List Char := "http://disk.yandex.ru/d/".data

/-- `re.match(r'https?://disk\.yandex\.ru/d/([a-zA-Z0-9\-]+)', url)` as a
Bool: the url starts with one of the two stems followed by at least one
token character (`re.match` anchors at the start only). -/
def matchShort (s : List Char) : Bool :=
  if shortHttps.isPrefixOf s then headTokenChar (s.drop 25)
  else if shortHttp.isPrefixOf s then headTokenChar (s.drop 24)
  else false

/-- `re.match(r'https?://disk\.yandex\.ru/d/', url)` as used by
`get_url_type`: the stem alone, no token required. -/
def matchShortLoose (s : List Char) : Bool :=
  shortHttps.isPrefixOf s || shortHttp.isPrefixOf s

/-- `re.match(r'^[a-zA-Z0-9+/]+=*$', url)` as a Bool: one or more hash
alphabet characters followed by only `=`. -/
def matchHashPattern (s : List Char) : Bool :=
  let a := s.takeWhile b64Char
  !a.isEmpty && (s.drop a.length).all (fun c => c == '=')

/-- Error text for an empty (post-strip) url. -/
def emptyUrlMsg : List Char := "URL не может быть пустым".data

/-- Error text when an http url has no `hash` parameter and no `/d/` path. -/
def noHashMsg : List Char := "URL не содержит параметр hash или корректный путь /d/".data

/-- Error text listing the three supported formats. -/
def formatsMsg : List Char :=
  ("URL не соответствует ни одному из поддерживаемых форматов:\n" ++
   "1. Короткая ссылка: https://disk.yandex.ru/d/...\n" ++
   "2. Полная ссылка: https://disk.yandex.ru/public/?hash=...\n" ++
   "3. Хеш: dAEMkc1Q...").data

/-- The canonical full-link stem re-emitted for hash links. -/
def canonicalHashStem : List Char := "https://disk.yandex.ru/public/?hash=".data

/-- `url_parser.normalize_url`: strip; reject empty; accept a strict short
link unchanged; for `http*` inputs parse with `urlparse`, require
`disk.yandex.ru` in the netloc, re-emit a found `hash` value (unquoted
once more) as a canonical full link, else accept a `/d/` path unchanged,
else fail; otherwise accept a bare-hash string unchanged; else fail. -/
def normalize_url (url0 : List Char) : Except PyFailure (List Char) :=
  let url := pyStrip url0
  if url.isEmpty then .error (.parseError emptyUrlMsg)
  else if matchShort url then .ok url
  else if "http".data.isPrefixOf url then
    match urlparse url with
    | .error e => .error e
    | .ok parsed =>
      if "disk.yandex.ru".data <:+: parsed.netloc then
        match firstParamValue "hash".data (parse_qsl parsed.query) with
        | some v => .ok (canonicalHashStem ++ unquote v)
        | none =>
          if "/d/".data <:+: parsed.path then .ok url
          else .error (.parseError noHashMsg)
      else .error (.parseError ("URL не является ссылкой на Яндекс Диск: ".data ++ parsed.netloc))
  else if matchHashPattern url then .ok url
  else .error (.parseError formatsMsg)

/-- `url_parser.get_url_type`: the diagnostic classifier.  It calls
`urlparse` for `http*` inputs, so it too can propagate `ValueError`. -/
def get_url_type (url0 : List Char) : Except PyFailure (List Char) :=
  let url := pyStrip url0
  if matchShortLoose url then .ok "short".data
  else
    match (if "http".data.isPrefixOf url then
             match urlparse url with
             | .error e => .error e
             | .ok parsed =>
                 .ok (decide ("disk.yandex.ru".data <:+: parsed.netloc) &&
                      (firstParamValue "hash".data (parse_qsl parsed.query)).isSome)
           else .ok false : Except PyFailure Bool) with
    | .error e => .error e
    | .ok true => .ok "full".data
    | .ok false =>
      if matchHashPattern url then .ok "hash".data else .ok "unknown".data

/-! ## `api_client.py` -/

/-- The repository's `YandexAPIError`, carrying its human-readable message. -/
structure YandexAPIError where
  msg : List Char
deriving DecidableEq, Repr

/-- One JSON object of the owner-lookup response's `accesses` list, as read
by `get_resource_owner` via `access.get(...)`: each field may be absent.
The `id`/`org_id` values are the JSON numbers the endpoint returns (the
`int(...)` coercion applied by the code is the identity on them). -/
structure AccessEntry where
  type : Option (List Char)
  id : Option Int
  org_id : Option Int
deriving DecidableEq, Repr

/-- Error raised when no access entry has type `"owner"`. -/
def noOwnerErr : YandexAPIError := ⟨"Владелец ресурса не найден в данных о доступе".data⟩

/-- Error raised when the owner entry lacks `id` or `org_id`. -/
def incompleteOwnerErr : YandexAPIError := ⟨"Владелец найден, но данные неполные".data⟩

/-- The owner-extraction loop of `YandexAPIClient.get_resource_owner`,
applied to the decoded `accesses` list of a successful response: scan in
order for the first entry whose `type` is `"owner"`; return its
`(id, org_id)`; fail if either is missing, or if no owner entry exists. -/
def get_resource_owner : List AccessEntry → Except YandexAPIError (Int × Int)
  | [] => .error noOwnerErr
  | a :: rest =>
    if a.type == some "owner".data then
      match a.id, a.org_id with
      | some ownerUid, some orgId => .ok (ownerUid, orgId)
      | _, _ => .error incompleteOwnerErr
    else get_resource_owner rest

/-- The message `whoami` wraps around any `requests.RequestException` text
(HTTP errors included): there is no status-code branching in `whoami`. -/
def whoamiErrorMessage (e : List Char) : List Char :=
  "Ошибка при вызове whoami: ".data ++ e

/-- The status-code classification of HTTP errors in `get_resource_owner`
(`e` is the rendered exception text used by the fallback branch). -/
def ownerHttpErrorMessage (status : Int) (e : List Char) : List Char :=
  if status = 404 then "Публичный ресурс не найден или не принадлежит вашей организации".data
  else if status = 403 then "Недостаточно прав для доступа к информации о ресурсе".data
  else if status = 401 then "Неверный токен авторизации".data
  else "Ошибка HTTP ".data ++ (toString status).data ++ ": ".data ++ e

/-- The status-code classification of HTTP errors in `get_user_info`. -/
def userHttpErrorMessage (status : Int) (userId orgId : Int) (e : List Char) : List Char :=
  if status = 404 then
    "Пользователь с ID ".data ++ (toString userId).data ++
      " не найден в организации ".data ++ (toString orgId).data
  else if status = 403 then "Недостаточно прав для получения информации о пользователе".data
  else if status = 401 then "Неверный токен авторизации".data
  else "Ошибка HTTP ".data ++ (toString status).data ++ ": ".data ++ e

/-- `REQUIRED_SCOPES["disk"]`. -/
def REQUIRED_SCOPES_disk : List String := ["cloud_api:disk.read", "cloud_api:disk.write"]

/-- `REQUIRED_SCOPES["users"]`. -/
def REQUIRED_SCOPES_users : List String := ["directory:read_users", "directory:write_users"]

/-- The `for scope in ...: if scope in scopes_set: break` loop of
`validate_scopes`. -/
def hasAnyScope : List String → List String → Bool
  | [], _ => false
  | r :: rs, scopes => if scopes.contains r then true else hasAnyScope rs scopes

/-- `YandexAPIClient.validate_scopes`: returns `(is_valid, missing_scopes)`.
A group is satisfied by any of its scopes (write implies read); an
unsatisfied group appends its canonical read scope, disk first. -/
def validate_scopes (scopes : List String) : Bool × List String :=
  let hasDisk := hasAnyScope REQUIRED_SCOPES_disk scopes
  let hasUsers := hasAnyScope REQUIRED_SCOPES_users scopes
  let missing0 : List String := []
  let missing1 := if hasDisk then missing0 else missing0 ++ ["cloud_api:disk.read"]
  let missing2 := if hasUsers then missing1 else missing1 ++ ["directory:read_users"]
  (missing2.length == 0, missing2)

/-! ## `config.py` -/

/-- `ConfigManager.get_masked_token`: `"***"` for an empty or short (< 12)
token; otherwise the first 9 characters (first 3 if the token had at most
9 characters — unreachable given the length guard), an ellipsis, and the
last 4 characters. -/
def get_masked_token (token : List Char) : List Char :=
  if token.isEmpty || token.length < 12 then "***".data
  else
    let pre := if 9 < token.length then token.take 9 else token.take 3
    let suf := if 4 < token.length then token.drop (token.length - 4) else []
    pre ++ "...".data ++ suf

/-! ## `main.py` -/

/-- The user dictionary returned by `get_user_info` (opaque payload handed
to `ui.show_user_info`). -/
def UserData := List (List Char × List Char)
deriving instance DecidableEq for UserData

/-- What `process_url` makes the UI display at the end of one request. -/
inductive Display where
  | userInfo (d : UserData)
  | errorMsg (m : List Char)
deriving DecidableEq

/-- The remote calls `process_url` issues, in order. -/
inductive ApiCall where
  | ownerLookup (publicUrl : List Char)
  | profileLookup (orgId : Int) (userId : Int)
deriving DecidableEq, Repr

/-- The behaviour of the two remote endpoints used by `process_url`
(the network is external input; each call either returns a decoded result
or raises `YandexAPIError`, exactly the interface of `YandexAPIClient`). -/
structure ApiBehavior where
  resourceOwner : List Char → Except YandexAPIError (Int × Int)
  userInfo : Int → Int → Except YandexAPIError UserData

/-- `Application.process_url`, returning what is displayed and the trace
of remote calls made.  `configOrgId` is the `ORG_ID` loaded from the
configuration file (`_, config_org_id = self.config.load()` — read and
then ignored: `org_id_to_use = resource_org_id`).  `URLParseError`,
`YandexAPIError` and the generic `except Exception` branch (which catches
the `ValueError` escaping `urlparse`) each end in `ui.show_error`. -/
def process_url (api : ApiBehavior) (configOrgId : Option (List Char))
    (url : List Char) : Display × List ApiCall :=
  match normalize_url url with
  | .error (.parseError m) => (.errorMsg ("Некорректный URL: ".data ++ m), [])
  | .error (.valueError m) => (.errorMsg ("Непредвиденная ошибка: ".data ++ m), [])
  | .ok normalizedUrl =>
    match api.resourceOwner normalizedUrl with
    | .error e => (.errorMsg e.msg, [.ownerLookup normalizedUrl])
    | .ok (ownerUid, resourceOrgId) =>
      let _configOrgId := configOrgId
      match api.userInfo resourceOrgId ownerUid with
      | .error e =>
          (.errorMsg e.msg, [.ownerLookup normalizedUrl, .profileLookup resourceOrgId ownerUid])
      | .ok u =>
          (.userInfo u, [.ownerLookup normalizedUrl, .profileLookup resourceOrgId ownerUid])

/-- `UI.prompt_url`: strip the line; `None` (quit) when it lowercases to
one of `q`, `quit`, `exit`; otherwise the stripped line. -/
def prompt_url (raw : List Char) : Option (List Char) :=
  let u := pyStrip raw
  let lower := u.map Char.toLower
  if lower == "q".data || lower == "quit".data || lower == "exit".data then none
  else some u

/-- How a session ends in the `main_loop` model. -/
inductive SessionEnd where
  | outOfInput
  | normalExit
  | fatalError (m : List Char)
deriving DecidableEq

/-- `self.ui.ask_continue()` as called by `main_loop` after each processed
request: the `UI` class in `ui.py` defines no `ask_continue` method, so
the attribute access raises `AttributeError` no matter what the operator
would have answered. -/
def askContinueCall (intendedAnswer : Bool) : Except (List Char) Bool :=
  let _ := intendedAnswer
  .error "AttributeError: UI object has no attribute ask_continue".data

/-- One scripted iteration of the main loop: the raw line typed at the URL
prompt, and the answer the operator would give to the continue question. -/
structure LoopStep where
  rawInput : List Char
  continueAnswer : Bool

/-- `Application.main_loop` over a finite script of prompt inputs: returns
everything displayed for processed requests and how the session ended.
An empty line re-prompts; a quit keyword breaks the loop (normal exit);
any other line is processed, after which the code calls
`self.ui.ask_continue()` — see `askContinueCall`.  An `AttributeError`
escaping `main_loop` is caught by `Application.run`'s generic handler,
which reports it and exits the process with status 1 (`fatalError`). -/
def main_loop (api : ApiBehavior) (configOrgId : Option (List Char)) :
    List LoopStep → List Display × SessionEnd
  | [] => ([], .outOfInput)
  | step :: rest =>
    match prompt_url step.rawInput with
    | none => ([], .normalExit)
    | some url =>
      if url.isEmpty then
        let r := main_loop api configOrgId rest
        (.errorMsg "URL не может быть пустым".data :: r.1, r.2)
      else
        let d := (process_url api configOrgId url).1
        match askContinueCall step.continueAnswer with
        | .error m => ([d], .fatalError m)
        | .ok true =>
          let r := main_loop api configOrgId rest
          (d :: r.1, r.2)
        | .ok false => ([d], .normalExit)

/-! ## General list helper lemmas -/

theorem dropWhile_eq_self_of_all {p : Char → Bool} :
    ∀ {l : List Char}, (∀ c ∈ l, p c = false) → l.dropWhile p = l
  | [], _ => rfl
  | c :: l, h => by
    have hc : p c = false := h c (List.mem_cons_self c l)
    simp [List.dropWhile_cons, hc]

theorem pyStrip_eq_self {s : List Char} (h : ∀ c ∈ s, isPySpace c = false) :
    pyStrip s = s := by
  unfold pyStrip
  rw [dropWhile_eq_self_of_all h,
      dropWhile_eq_self_of_all (fun c hc => h c (List.mem_reverse.mp hc)),
      List.reverse_reverse]

theorem takeWhile_append_all {p : Char → Bool} :
    ∀ {a : List Char} (b : List Char), (∀ c ∈ a, p c = true) →
      (a ++ b).takeWhile p = a ++ b.takeWhile p
  | [], b, _ => rfl
  | c :: a, b, h => by
    have hc : p c = true := h c (List.mem_cons_self c a)
    simp only [List.cons_append, List.takeWhile_cons, hc, if_true]
    rw [takeWhile_append_all b (fun x hx => h x (List.mem_cons_of_mem c hx))]

theorem takeWhile_eq_self_of_all {p : Char → Bool} {l : List Char}
    (h : ∀ c ∈ l, p c = true) : l.takeWhile p = l := by
  have := takeWhile_append_all (a := l) [] h
  simpa using this

theorem takeWhile_stop {p : Char → Bool} {a b : List Char}
    (ha : ∀ c ∈ a, p c = true) (hb : ∀ c, b.head? = some c → p c = false) :
    (a ++ b).takeWhile p = a := by
  rw [takeWhile_append_all b ha]
  cases b with
  | nil => simp
  | cons c b' =>
    have hc : p c = false := hb c rfl
    simp [List.takeWhile_cons, hc]

theorem findIdx_append_left (p : Char → Bool) :
    ∀ (l₁ l₂ : List Char), l₁.findIdx p < l₁.length →
      (l₁ ++ l₂).findIdx p = l₁.findIdx p
  | [], _, h => by simp at h
  | c :: l₁, l₂, h => by
    by_cases hc : p c
    · simp [List.findIdx_cons, hc]
    · simp only [List.findIdx_cons, hc, cond_false, List.length_cons] at h
      have h1 : l₁.findIdx p < l₁.length := by omega
      simp only [List.cons_append, List.findIdx_cons, hc, cond_false]
      rw [findIdx_append_left p l₁ l₂ h1]

theorem findIdx_append_le (p : Char → Bool) :
    ∀ (l₁ l₂ : List Char),
      (l₁ ++ l₂).findIdx p ≤ l₁.length + l₂.findIdx p
  | [], _ => by simp
  | c :: l₁, l₂ => by
    by_cases hc : p c
    · simp [List.findIdx_cons, hc]
    · simp only [List.cons_append, List.findIdx_cons, hc, cond_false, List.length_cons]
      have := findIdx_append_le p l₁ l₂
      omega

theorem findIdx_lt_of_mem {p : Char → Bool} {a : Char} :
    ∀ {l : List Char}, a ∈ l → p a = true → l.findIdx p < l.length
  | [], h, _ => by simp at h
  | c :: l, h, hp => by
    by_cases hc : p c
    · simp [List.findIdx_cons, hc]
    · rcases List.mem_cons.mp h with rfl | h'
      · exact absurd hp (by simp [hc])
      · simp only [List.findIdx_cons, hc, cond_false, List.length_cons]
        have := findIdx_lt_of_mem h' hp
        omega

theorem findIdx_found (p : Char → Bool) :
    ∀ (l : List Char) (h : l.findIdx p < l.length), p (l.get ⟨l.findIdx p, h⟩) = true
  | [], h => by simp at h
  | c :: l, h => by
    by_cases hc : p c
    · simp [List.findIdx_cons, hc]
    · simp only [List.findIdx_cons, hc, cond_false, List.length_cons] at h
      have h1 : l.findIdx p < l.length := by omega
      have := findIdx_found p l h1
      simpa [List.findIdx_cons, hc] using this

theorem take_append_of_le {n : Nat} {l₁ l₂ : List Char} (h : n ≤ l₁.length) :
    (l₁ ++ l₂).take n = l₁.take n := by
  rw [List.take_append_eq_append_take]
  have : n - l₁.length = 0 := by omega
  simp [this]

theorem drop_append_of_le {n : Nat} {l₁ l₂ : List Char} (h : n ≤ l₁.length) :
    (l₁ ++ l₂).drop n = l₁.drop n ++ l₂ := by
  rw [List.drop_append_eq_append_drop]
  have : n - l₁.length = 0 := by omega
  simp [this]

theorem isEmpty_false_of_ne {l : List Char} (h : l ≠ []) : l.isEmpty = false := by
  cases l with
  | nil => exact absurd rfl h
  | cons c l => rfl

theorem contains_eq_false_of_all {l : List Char} {x : Char}
    (h : ∀ c ∈ l, c ≠ x) : l.contains x = false := by
  by_contra hc
  have : l.contains x = true := by
    cases hcv : l.contains x
    · exact absurd hcv hc
    · rfl
  have : x ∈ l := by
    rcases List.mem_of_elem_eq_true this with h'
    exact h'
  exact h x this rfl

/-! ## Character classes used to describe input families in the theorems -/

/-- A character that survives `str.strip()` (not whitespace) and the
unsafe-byte removal of `urlsplit` (code point above 0x20). -/
def plainChar (c : Char) : Bool := decide (0x20 < c.toNat) && !(isPySpace c)

/-- Characters allowed in the netloc of the full-link family of C1:
plain, ASCII (so that CPython's `_checknetloc` is a no-op), and none of
the delimiters `/ ? #` nor brackets. -/
def netChar (c : Char) : Bool :=
  plainChar c && decide (c.toNat < 128) &&
  !(c == '/' || c == '?' || c == '#' || c == '[' || c == ']')

/-- Characters allowed in the path of the full-link family of C1:
plain and none of `? # ;`. -/
def pathChar (c : Char) : Bool := plainChar c && !(c == '?' || c == '#' || c == ';')

/-- Characters allowed in the query of the full-link family of C1:
plain and not `#`. -/
def queryChar (c : Char) : Bool := plainChar c && !(c == '#')

theorem plainChar_not_space {c : Char} (h : plainChar c = true) : isPySpace c = false := by
  unfold plainChar at h
  simp only [Bool.and_eq_true] at h
  rcases h with ⟨-, h2⟩
  cases hv : isPySpace c
  · rfl
  · rw [hv] at h2; exact absurd h2 (by decide)

theorem plainChar_keep {c : Char} (h : plainChar c = true) :
    (!(c == '\t' || c == '\r' || c == '\n')) = true := by
  unfold plainChar at h
  simp only [Bool.and_eq_true] at h
  rcases h with ⟨h1, -⟩
  have hgt : 0x20 < c.toNat := of_decide_eq_true h1
  have ht : (c == '\t') = false := by
    cases hb : c == '\t'
    · rfl
    · have : c = '\t' := eq_of_beq hb
      subst this; simp at hgt
  have hr : (c == '\r') = false := by
    cases hb : c == '\r'
    · rfl
    · have : c = '\r' := eq_of_beq hb
      subst this; simp at hgt
  have hn : (c == '\n') = false := by
    cases hb : c == '\n'
    · rfl
    · have : c = '\n' := eq_of_beq hb
      subst this; simp at hgt
  simp [ht, hr, hn]

theorem numRange_plain {c : Char} (h1 : 0x20 < c.toNat) (h2 : c.toNat < 0x85) :
    plainChar c = true := by
  simp only [plainChar, isPySpace, Bool.and_eq_true, Bool.not_eq_true', Bool.or_eq_false_iff,
    beq_eq_false_iff_ne, ne_eq, decide_eq_true_eq, Bool.and_eq_false_iff,
    decide_eq_false_iff_not, not_le]
  omega

theorem tokenChar_plain {c : Char} (h : tokenChar c = true) : plainChar c = true := by
  by_cases hd : c = '-'
  · subst hd; decide
  · simp only [tokenChar, Bool.or_eq_true, Bool.and_eq_true, decide_eq_true_eq, beq_iff_eq,
      hd, or_false] at h
    exact numRange_plain (by omega) (by omega)

theorem b64Char_plain {c : Char} (h : b64Char c = true) : plainChar c = true := by
  by_cases hp : c = '+'
  · subst hp; decide
  · by_cases hs : c = '/'
    · subst hs; decide
    · simp only [b64Char, Bool.or_eq_true, Bool.and_eq_true, decide_eq_true_eq, beq_iff_eq,
        hp, hs, or_false] at h
      exact numRange_plain (by omega) (by omega)

theorem netChar_plain {c : Char} (h : netChar c = true) : plainChar c = true := by
  unfold netChar at h
  simp only [Bool.and_eq_true] at h
  exact h.1.1

theorem pathChar_plain {c : Char} (h : pathChar c = true) : plainChar c = true := by
  unfold pathChar at h
  simp only [Bool.and_eq_true] at h
  exact h.1

theorem queryChar_plain {c : Char} (h : queryChar c = true) : plainChar c = true := by
  unfold queryChar at h
  simp only [Bool.and_eq_true] at h
  exact h.1

/-! ## Membership chains through the parsing pipeline -/

theorem mem_pyStrip {c : Char} {s : List Char} (h : c ∈ pyStrip s) : c ∈ s := by
  unfold pyStrip at h
  have h1 := List.mem_reverse.mp h
  have h2 := (List.dropWhile_sublist isPySpace).mem h1
  have h3 := List.mem_reverse.mp h2
  exact (List.dropWhile_sublist isPySpace).mem h3

theorem mem_removeUnsafe {c : Char} {s : List Char} (h : c ∈ removeUnsafe s) : c ∈ s :=
  (List.filter_sublist s).mem h

theorem mem_splitScheme_snd {c : Char} {u : List Char} (h : c ∈ (splitScheme u).2) : c ∈ u := by
  simp only [splitScheme] at h
  split at h
  · exact (List.drop_sublist _ u).mem h
  · exact h

theorem mem_splitNetloc_fst {c : Char} {u : List Char} (h : c ∈ (splitNetloc u).1) : c ∈ u := by
  unfold splitNetloc at h
  have h1 := (List.takeWhile_sublist _).mem h
  exact (List.drop_sublist 2 u).mem h1

/-- Without a bracket anywhere in the input, `urlsplit` cannot raise:
the only raising path is the unbalanced-bracket check on the netloc, and
the netloc is carved out of the input. -/
theorem urlsplit_ok_of_no_brackets {u : List Char} (h1 : '[' ∉ u) (h2 : ']' ∉ u) :
    ∃ r, urlsplit u = .ok r := by
  unfold urlsplit
  by_cases htwo : ((splitScheme (removeUnsafe u)).2).take 2 = "//".data
  · rw [if_pos htwo]
    have hnl : ¬ (('[' ∈ (splitNetloc (splitScheme (removeUnsafe u)).2).1 ∧
          ']' ∉ (splitNetloc (splitScheme (removeUnsafe u)).2).1) ∨
        (']' ∈ (splitNetloc (splitScheme (removeUnsafe u)).2).1 ∧
          '[' ∉ (splitNetloc (splitScheme (removeUnsafe u)).2).1)) := by
      rintro (⟨hin, -⟩ | ⟨hin, -⟩)
      · exact h1 (mem_removeUnsafe (mem_splitScheme_snd (mem_splitNetloc_fst hin)))
      · exact h2 (mem_removeUnsafe (mem_splitScheme_snd (mem_splitNetloc_fst hin)))
    rw [if_neg hnl]
    exact ⟨_, rfl⟩
  · rw [if_neg htwo]
    exact ⟨_, rfl⟩

/-- `urlparse` on a bracket-free input always succeeds. -/
theorem urlparse_ok_of_no_brackets {u : List Char} (h1 : '[' ∉ u) (h2 : ']' ∉ u) :
    ∃ r, urlparse u = .ok r := by
  obtain ⟨r, hr⟩ := urlsplit_ok_of_no_brackets h1 h2
  exact ⟨_, by rw [urlparse, hr]⟩

/-! ## C3: error behaviour of `normalize_url` -/

/-- C3 (amended): empty or whitespace-only input makes `normalize_url`
fail with `URLParseError`; for inputs that are ASCII and contain no
square bracket, every failure of `normalize_url` is a `URLParseError`
(never any other exception); and a non-empty input that matches none of
the three accepted forms fails with the `URLParseError` listing the
supported formats.  (The bracket/ASCII proviso is forced by the
counterexample `http://[a`, where `urlsplit` raises `ValueError`.) -/
theorem normalize_url_error_classification : ∀ s : List Char,
    (pyStrip s = [] → normalize_url s = .error (.parseError emptyUrlMsg)) ∧
    ((∀ c ∈ s, c.toNat < 128) → '[' ∉ s → ']' ∉ s →
      ∀ m, normalize_url s ≠ .error (.valueError m)) ∧
    (pyStrip s ≠ [] → matchShort (pyStrip s) = false →
      "http".data.isPrefixOf (pyStrip s) = false →
      matchHashPattern (pyStrip s) = false →
      normalize_url s = .error (.parseError formatsMsg)) := by
  intro s
  refine ⟨?_, ?_, ?_⟩
  · intro h
    simp [normalize_url, h]
  · intro _ hb1 hb2 m heq
    have hb1' : '[' ∉ pyStrip s := fun hc => hb1 (mem_pyStrip hc)
    have hb2' : ']' ∉ pyStrip s := fun hc => hb2 (mem_pyStrip hc)
    obtain ⟨r, hr⟩ := urlparse_ok_of_no_brackets hb1' hb2'
    simp only [normalize_url] at heq
    split at heq
    · simp at heq
    · split at heq
      · simp at heq
      · split at heq
        · rw [hr] at heq
          dsimp only at heq
          split at heq
          · split at heq
            · simp at heq
            · split at heq
              · simp at heq
              · simp at heq
          · simp at heq
        · split at heq
          · simp at heq
          · simp at heq
  · intro h1 h2 h3 h4
    simp [normalize_url, isEmpty_false_of_ne h1, h2, h3, h4]

/-- C3 counterexample: `http://[a` contains characters outside every
accepted alphabet and matches none of the three link forms, yet
`normalize_url` escapes with `ValueError` (from `urllib.parse.urlsplit`),
not with `URLParseError`. -/
theorem normalize_url_valueError_example :
    normalize_url "http://[a".data = .error (.valueError "Invalid IPv6 URL".data) := by decide

/-- C3 witness: the classification theorem applied at concrete inputs. -/
theorem normalize_url_error_classification_witness :
    normalize_url "   ".data = .error (.parseError emptyUrlMsg) ∧
    (normalize_url "zz".data ≠ .error (.valueError [])) ∧
    normalize_url "@@@".data = .error (.parseError formatsMsg) :=
  ⟨(normalize_url_error_classification "   ".data).1 (by decide),
   (normalize_url_error_classification "zz".data).2.1 (by decide) (by decide) (by decide) [],
   (normalize_url_error_classification "@@@".data).2.2 (by decide) (by decide) (by decide)
     (by decide)⟩

theorem mem_of_getElem?_eq_some {l : List Char} {i : Nat} {a : Char}
    (h : l[i]? = some a) : a ∈ l := by
  have hi : i < l.length := by
    by_contra hc
    simp [List.getElem?_eq_none (by omega : l.length ≤ i)] at h
  have hv : l[i] = a := by
    have hg := List.getElem?_eq_getElem hi
    rw [hg] at h
    exact Option.some.inj h
  rw [← hv]
  exact List.getElem_mem hi

/-! ## C4: owner extraction from the accesses list -/

/-- The scan predicate of `get_resource_owner`. -/
def isOwnerEntry (a : AccessEntry) : Bool := a.type == some "owner".data

/-- C4: `get_resource_owner` returns the `(id, org_id)` pair of the first
entry of type "owner", fails with the incomplete-data error when that
entry lacks either identifier, and fails with the no-owner error exactly
when no owner-typed entry exists; it succeeds iff a first owner entry
exists and carries both identifiers. -/
theorem get_resource_owner_spec : ∀ l : List AccessEntry,
    (l.find? isOwnerEntry = none → get_resource_owner l = .error noOwnerErr) ∧
    (∀ a, l.find? isOwnerEntry = some a →
      get_resource_owner l =
        match a.id, a.org_id with
        | some ownerUid, some orgId => .ok (ownerUid, orgId)
        | _, _ => .error incompleteOwnerErr) ∧
    ((∃ uidOrg, get_resource_owner l = .ok uidOrg) ↔
      ∃ a, l.find? isOwnerEntry = some a ∧ a.id ≠ none ∧ a.org_id ≠ none) := by
  intro l
  induction l with
  | nil =>
    refine ⟨fun _ => rfl, ?_, ?_⟩
    · intro a ha; simp [List.find?] at ha
    · constructor
      · rintro ⟨u, hu⟩; simp [get_resource_owner] at hu
      · rintro ⟨a, ha, -⟩; simp [List.find?] at ha
  | cons a l ih =>
    by_cases ht : (a.type == some "owner".data) = true
    · have hf : (a :: l).find? isOwnerEntry = some a := by
        simp [List.find?_cons, isOwnerEntry, ht]
      have hg : get_resource_owner (a :: l) =
          (match a.id, a.org_id with
           | some ownerUid, some orgId => .ok (ownerUid, orgId)
           | _, _ => .error incompleteOwnerErr) := by
        simp [get_resource_owner, ht]
      refine ⟨?_, ?_, ?_⟩
      · intro h0; rw [hf] at h0; cases h0
      · intro b hb
        rw [hf] at hb
        have hab : a = b := Option.some.inj hb
        subst hab
        exact hg
      · rw [hg]
        cases hid : a.id with
        | none =>
          constructor
          · rintro ⟨p, hp⟩; simp at hp
          · rintro ⟨b, hb, hb1, -⟩
            rw [hf] at hb
            have hab : a = b := Option.some.inj hb
            subst hab
            exact absurd hid hb1
        | some u =>
          cases horg : a.org_id with
          | none =>
            constructor
            · rintro ⟨p, hp⟩; simp at hp
            · rintro ⟨b, hb, -, hb2⟩
              rw [hf] at hb
              have hab : a = b := Option.some.inj hb
              subst hab
              exact absurd horg hb2
          | some o =>
            constructor
            · intro _
              exact ⟨a, hf, by simp [hid], by simp [horg]⟩
            · intro _
              exact ⟨(u, o), rfl⟩
    · have ht' : (a.type == some "owner".data) = false := by
        cases hv : (a.type == some "owner".data)
        · rfl
        · exact absurd hv ht
      have hf : (a :: l).find? isOwnerEntry = l.find? isOwnerEntry := by
        simp [List.find?_cons, isOwnerEntry, ht']
      have hg : get_resource_owner (a :: l) = get_resource_owner l := by
        simp [get_resource_owner, ht']
      refine ⟨?_, ?_, ?_⟩
      · intro h0; rw [hf] at h0; rw [hg]; exact ih.1 h0
      · intro b hb; rw [hf] at hb; rw [hg]; exact ih.2.1 b hb
      · rw [hg, hf]; exact ih.2.2

/-- C4 witness: a viewer entry followed by a complete owner entry. -/
theorem get_resource_owner_spec_witness :
    ([(⟨some "viewer".data, none, none⟩ : AccessEntry),
      ⟨some "owner".data, some 500, some 7⟩].find? isOwnerEntry =
        some ⟨some "owner".data, some 500, some 7⟩) ∧
    get_resource_owner
        [⟨some "viewer".data, none, none⟩, ⟨some "owner".data, some 500, some 7⟩] =
      .ok (500, 7) :=
  ⟨by decide,
   (get_resource_owner_spec _).2.1 ⟨some "owner".data, some 500, some 7⟩ (by decide)⟩

/-! ## C5: HTTP error classification of the three remote operations -/

/-- C5 counterexample: for an HTTP 401 during the identity check, `whoami`
raises the generic wrapped message, not the specific bad-credential
message the claim requires of every remote operation. -/
theorem whoami_generic_message :
    whoamiErrorMessage "401 Client Error: Unauthorized".data =
      "Ошибка при вызове whoami: 401 Client Error: Unauthorized".data ∧
    whoamiErrorMessage "401 Client Error: Unauthorized".data ≠
      "Неверный токен авторизации".data :=
  ⟨by decide, by decide⟩

/-- C5 (amended): the owner-lookup and user-profile operations classify
HTTP 401/403/404 into distinct, specific messages; the identity check
(`whoami`) instead wraps every request failure, whatever its status, in
the one generic whoami message. -/
theorem http_error_classification :
    (∀ e, ownerHttpErrorMessage 404 e =
      "Публичный ресурс не найден или не принадлежит вашей организации".data) ∧
    (∀ e, ownerHttpErrorMessage 403 e =
      "Недостаточно прав для доступа к информации о ресурсе".data) ∧
    (∀ e, ownerHttpErrorMessage 401 e = "Неверный токен авторизации".data) ∧
    (∀ e₁ e₂, ownerHttpErrorMessage 404 e₁ ≠ ownerHttpErrorMessage 403 e₂ ∧
      ownerHttpErrorMessage 404 e₁ ≠ ownerHttpErrorMessage 401 e₂ ∧
      ownerHttpErrorMessage 403 e₁ ≠ ownerHttpErrorMessage 401 e₂) ∧
    (∀ uid orgId e, userHttpErrorMessage 404 uid orgId e =
      "Пользователь с ID ".data ++ (toString uid).data ++
        " не найден в организации ".data ++ (toString orgId).data) ∧
    (∀ uid orgId e, userHttpErrorMessage 403 uid orgId e =
      "Недостаточно прав для получения информации о пользователе".data) ∧
    (∀ uid orgId e, userHttpErrorMessage 401 uid orgId e =
      "Неверный токен авторизации".data) ∧
    (∀ uid₁ orgId₁ uid₂ orgId₂ e₁ e₂,
      userHttpErrorMessage 404 uid₁ orgId₁ e₁ ≠ userHttpErrorMessage 403 uid₂ orgId₂ e₂ ∧
      userHttpErrorMessage 404 uid₁ orgId₁ e₁ ≠ userHttpErrorMessage 401 uid₂ orgId₂ e₂ ∧
      userHttpErrorMessage 403 uid₁ orgId₁ e₁ ≠ userHttpErrorMessage 401 uid₂ orgId₂ e₂) ∧
    (∀ e, whoamiErrorMessage e = "Ошибка при вызове whoami: ".data ++ e) := by
  refine ⟨fun e => by simp [ownerHttpErrorMessage],
          fun e => by simp [ownerHttpErrorMessage],
          fun e => by simp [ownerHttpErrorMessage],
          fun e₁ e₂ => ⟨by simp [ownerHttpErrorMessage], by simp [ownerHttpErrorMessage],
            by simp [ownerHttpErrorMessage]⟩,
          fun uid orgId e => by simp [userHttpErrorMessage],
          fun uid orgId e => by simp [userHttpErrorMessage],
          fun uid orgId e => by simp [userHttpErrorMessage],
          fun uid₁ orgId₁ uid₂ orgId₂ e₁ e₂ => ⟨?_, ?_, ?_⟩,
          fun e => rfl⟩
  · intro h; simp [userHttpErrorMessage] at h
  · intro h; simp [userHttpErrorMessage] at h
  · intro h; simp [userHttpErrorMessage] at h

/-- C5 witness: the classification applied at status 401 of the owner
lookup with a concrete exception text. -/
theorem http_error_classification_witness :
    ownerHttpErrorMessage 401 "401 Client Error".data = "Неверный токен авторизации".data :=
  http_error_classification.2.2.1 "401 Client Error".data

/-! ## C8: scope validation -/

theorem contains_true_iff {l : List String} {x : String} : l.contains x = true ↔ x ∈ l :=
  ⟨List.mem_of_elem_eq_true, List.elem_eq_true_of_mem⟩

/-- C8: `validate_scopes` marks the disk group satisfied by either the
read or the write disk scope and the directory group by either directory
scope; each unsatisfied group contributes exactly its canonical
read-scope name to `missing` (disk before directory), and `is_valid` is
true iff `missing` is empty. -/
theorem validate_scopes_spec : ∀ scopes : List String,
    (validate_scopes scopes).2 =
      (if ("cloud_api:disk.read" : String) ∈ scopes ∨ ("cloud_api:disk.write" : String) ∈ scopes
       then [] else ["cloud_api:disk.read"]) ++
      (if ("directory:read_users" : String) ∈ scopes ∨ ("directory:write_users" : String) ∈ scopes
       then [] else ["directory:read_users"]) ∧
    ((validate_scopes scopes).1 = true ↔ (validate_scopes scopes).2 = []) := by
  intro scopes
  have hdisk : hasAnyScope REQUIRED_SCOPES_disk scopes = true ↔
      ("cloud_api:disk.read" : String) ∈ scopes ∨ ("cloud_api:disk.write" : String) ∈ scopes := by
    simp only [REQUIRED_SCOPES_disk, hasAnyScope]
    by_cases h1 : scopes.contains "cloud_api:disk.read" = true
    · simp [h1, contains_true_iff.mp h1]
    · have h1' : scopes.contains "cloud_api:disk.read" = false := by
        cases hv : scopes.contains "cloud_api:disk.read"
        · rfl
        · exact absurd hv h1
      by_cases h2 : scopes.contains "cloud_api:disk.write" = true
      · simp [h1', h2, contains_true_iff.mp h2]
      · have h2' : scopes.contains "cloud_api:disk.write" = false := by
          cases hv : scopes.contains "cloud_api:disk.write"
          · rfl
          · exact absurd hv h2
        constructor
        · intro h
          simp [h1', h2'] at h
          exact h
        · rintro (h | h)
          · have hc := contains_true_iff.mpr h
            rw [h1'] at hc
            exact absurd hc (by decide)
          · have hc := contains_true_iff.mpr h
            rw [h2'] at hc
            exact absurd hc (by decide)
  have husers : hasAnyScope REQUIRED_SCOPES_users scopes = true ↔
      ("directory:read_users" : String) ∈ scopes ∨ ("directory:write_users" : String) ∈ scopes := by
    simp only [REQUIRED_SCOPES_users, hasAnyScope]
    by_cases h1 : scopes.contains "directory:read_users" = true
    · simp [h1, contains_true_iff.mp h1]
    · have h1' : scopes.contains "directory:read_users" = false := by
        cases hv : scopes.contains "directory:read_users"
        · rfl
        · exact absurd hv h1
      by_cases h2 : scopes.contains "directory:write_users" = true
      · simp [h1', h2, contains_true_iff.mp h2]
      · have h2' : scopes.contains "directory:write_users" = false := by
          cases hv : scopes.contains "directory:write_users"
          · rfl
          · exact absurd hv h2
        constructor
        · intro h
          simp [h1', h2'] at h
          exact h
        · rintro (h | h)
          · have hc := contains_true_iff.mpr h
            rw [h1'] at hc
            exact absurd hc (by decide)
          · have hc := contains_true_iff.mpr h
            rw [h2'] at hc
            exact absurd hc (by decide)
  have hbool : ∀ b : Bool, b ≠ true → b = false := by
    intro b hb
    cases b
    · rfl
    · exact absurd rfl hb
  constructor
  · by_cases hdp : ("cloud_api:disk.read" : String) ∈ scopes ∨
        ("cloud_api:disk.write" : String) ∈ scopes <;>
      by_cases hup : ("directory:read_users" : String) ∈ scopes ∨
        ("directory:write_users" : String) ∈ scopes
    · rw [if_pos hdp, if_pos hup]
      simp [validate_scopes, hdisk.mpr hdp, husers.mpr hup]
    · rw [if_pos hdp, if_neg hup]
      simp [validate_scopes, hdisk.mpr hdp, hbool _ (fun h => hup (husers.mp h))]
    · rw [if_neg hdp, if_pos hup]
      simp [validate_scopes, husers.mpr hup, hbool _ (fun h => hdp (hdisk.mp h))]
    · rw [if_neg hdp, if_neg hup]
      simp [validate_scopes, hbool _ (fun h => hdp (hdisk.mp h)),
        hbool _ (fun h => hup (husers.mp h))]
  · by_cases hd : hasAnyScope REQUIRED_SCOPES_disk scopes = true <;>
      by_cases hu : hasAnyScope REQUIRED_SCOPES_users scopes = true
    · simp [validate_scopes, hd, hu]
    · simp [validate_scopes, hd, hbool _ hu]
    · simp [validate_scopes, hbool _ hd, hu]
    · simp [validate_scopes, hbool _ hd, hbool _ hu]

/-! ## C9: credential masking -/

/-- C9 counterexample: a 12-character credential ending in three dots is
fully contained in its own mask. -/
theorem get_masked_token_contains_example :
    12 ≤ ("abcdefghi...".data).length ∧
    "abcdefghi...".data <:+: get_masked_token "abcdefghi...".data := by
  constructor
  · decide
  · decide

/-- C9 (amended): for a credential of length at least 12 the mask always
contains the 9-character prefix and the 4-character suffix of the
credential, and — provided the credential contains no `.` (forced by the
counterexample `abcdefghi...`) — never the full credential itself;
shorter credentials are rendered as the fixed marker `***`. -/
theorem get_masked_token_spec : ∀ t : List Char,
    (12 ≤ t.length →
      (t.take 9 <:+: get_masked_token t) ∧
      (t.drop (t.length - 4) <:+: get_masked_token t) ∧
      ('.' ∉ t → ¬ (t <:+: get_masked_token t))) ∧
    (t.length < 12 → get_masked_token t = "***".data) := by
  intro t
  constructor
  · intro h12
    have ht : t ≠ [] := by
      intro h
      subst h
      simp at h12
    have hmask : get_masked_token t =
        t.take 9 ++ "...".data ++ t.drop (t.length - 4) := by
      unfold get_masked_token
      rw [if_neg (by simp [isEmpty_false_of_ne ht]; omega),
          if_pos (by omega : 9 < t.length), if_pos (by omega : 4 < t.length)]
    have hl9 : (t.take 9).length = 9 := by
      simp only [List.length_take]
      omega
    have hl4 : (t.drop (t.length - 4)).length = 4 := by
      simp only [List.length_drop]
      omega
    refine ⟨?_, ?_, ?_⟩
    · rw [hmask]
      exact ⟨[], "...".data ++ t.drop (t.length - 4), by simp [List.append_assoc]⟩
    · rw [hmask]
      exact ⟨t.take 9 ++ "...".data, [], by simp⟩
    · intro hdot hinf
      rw [hmask] at hinf
      obtain ⟨sp, su, he⟩ := hinf
      have h0 := congrArg List.length he
      simp only [List.length_append, hl9, hl4] at h0
      have hdots : ("...".data).length = 3 := by decide
      rw [hdots] at h0
      have hr11 : ((t.take 9 ++ "...".data) ++ t.drop (t.length - 4))[11]? = some '.' := by
        rw [List.getElem?_append_left (by simp [List.length_append, hl9, hdots])]
        rw [List.getElem?_append_right (by rw [hl9]; omega)]
        rw [hl9]
        rfl
      have hl11 : ((sp ++ t) ++ su)[11]? = some '.' := by
        have he' : (sp ++ t) ++ su = (t.take 9 ++ "...".data) ++ t.drop (t.length - 4) := by
          rw [← he]
        rw [he']
        exact hr11
      have h1 : (sp ++ t)[11]? = some '.' := by
        rw [List.getElem?_append_left (by simp [List.length_append]; omega)] at hl11
        exact hl11
      have h2 : t[11 - sp.length]? = some '.' := by
        rw [List.getElem?_append_right (by omega)] at h1
        exact h1
      exact hdot (mem_of_getElem?_eq_some h2)
  · intro h
    unfold get_masked_token
    rw [if_pos (by simp [h])]

/-- C9 witness: a dot-free 12-character token and a short token. -/
theorem get_masked_token_spec_witness :
    (¬ ("abcdefghijkl".data <:+: get_masked_token "abcdefghijkl".data)) ∧
    get_masked_token "ab".data = "***".data :=
  ⟨((get_masked_token_spec "abcdefghijkl".data).1 (by decide)).2.2 (by decide),
   (get_masked_token_spec "ab".data).2 (by decide)⟩

/-! ## C6: per-request error handling in the main loop -/

/-- C6 (code bug): `process_url` does catch and report the `URLParseError`
of a malformed link, but immediately afterwards `main_loop` calls
`self.ui.ask_continue()`, a method the `UI` class does not define; the
resulting `AttributeError` escapes `main_loop` and ends the whole session
through the top-level handler (exit status 1), for any API behaviour,
any configuration and any remaining script — the loop never reaches the
next prompt. -/
theorem main_loop_fatal_after_request :
    ∀ (api : ApiBehavior) (cfg : Option (List Char)) (ans : Bool) (rest : List LoopStep),
      main_loop api cfg ({ rawInput := "###".data, continueAnswer := ans } :: rest) =
        ([.errorMsg ("Некорректный URL: ".data ++ formatsMsg)],
         .fatalError "AttributeError: UI object has no attribute ask_continue".data) := by
  intro api cfg ans rest
  rfl

/-! ## C7: the profile call uses the owner lookup's organization id -/

/-- C7: `process_url` is completely insensitive to the organization id
stored in the configuration file (the `config.load()` read is dead), and
whenever the owner lookup returns `(uid, org)` the subsequent profile
call is made with exactly that `org` and `uid`. -/
theorem process_url_uses_resource_org :
    (∀ (api : ApiBehavior) (cfg1 cfg2 : Option (List Char)) (url : List Char),
      process_url api cfg1 url = process_url api cfg2 url) ∧
    (∀ (api : ApiBehavior) (cfg : Option (List Char)) (url normalizedUrl : List Char)
        (uid org : Int),
      normalize_url url = .ok normalizedUrl →
      api.resourceOwner normalizedUrl = .ok (uid, org) →
      (process_url api cfg url).2 =
        [.ownerLookup normalizedUrl, .profileLookup org uid]) := by
  constructor
  · intro api cfg1 cfg2 url
    rfl
  · intro api cfg url normalizedUrl uid org h1 h2
    simp only [process_url, h1, h2]
    cases api.userInfo org uid <;> rfl

/-- The concrete endpoint behaviour used by the C7 witness: the owner
lookup answers `(uid 500, org 7)` and the profile endpoint only answers
for exactly that pair. -/
def apiForWitness : ApiBehavior where
  resourceOwner := fun _ => .ok (500, 7)
  userInfo := fun orgId userId =>
    if orgId == 7 && userId == 500 then .ok ([] : UserData)
    else .error ⟨"неожиданные аргументы".data⟩

/-- C7 witness: the bare-hash link `abc` with the concrete behaviour. -/
theorem process_url_uses_resource_org_witness :
    normalize_url "abc".data = .ok "abc".data ∧
    apiForWitness.resourceOwner "abc".data = .ok (500, 7) ∧
    (process_url apiForWitness none "abc".data).2 =
      [.ownerLookup "abc".data, .profileLookup 7 500] :=
  ⟨by decide, rfl,
   process_url_uses_resource_org.2 apiForWitness none "abc".data "abc".data 500 7
     (by decide) rfl⟩

/-! ## Computation lemmas for `urlsplit` on structured inputs -/

theorem splitScheme_https (t : List Char) :
    splitScheme ("https://".data ++ t) = ("https".data, "//".data ++ t) := by
  have hfi : ("https://".data ++ t).findIdx (fun c => c == ':') = 5 := by
    rw [findIdx_append_left _ "https://".data t (by decide)]
    decide
  simp only [splitScheme]
  rw [hfi]
  rw [if_pos ?cond]
  case cond =>
    refine ⟨by omega, ?_, ?_, ?_⟩
    · have h8 : ("https://".data).length = 8 := by decide
      rw [List.length_append, h8]
      omega
    · rfl
    · rw [take_append_of_le (by decide)]
      decide
  rw [take_append_of_le (by decide), drop_append_of_le (by decide)]
  have h1 : (("https://".data).take 5).map Char.toLower = "https".data := by decide
  have h2 : ("https://".data).drop (5 + 1) = "//".data := by decide
  rw [h1, h2]

theorem splitScheme_http (t : List Char) :
    splitScheme ("http://".data ++ t) = ("http".data, "//".data ++ t) := by
  have hfi : ("http://".data ++ t).findIdx (fun c => c == ':') = 4 := by
    rw [findIdx_append_left _ "http://".data t (by decide)]
    decide
  simp only [splitScheme]
  rw [hfi]
  rw [if_pos ?cond]
  case cond =>
    refine ⟨by omega, ?_, ?_, ?_⟩
    · have h7 : ("http://".data).length = 7 := by decide
      rw [List.length_append, h7]
      omega
    · rfl
    · rw [take_append_of_le (by decide)]
      decide
  rw [take_append_of_le (by decide), drop_append_of_le (by decide)]
  have h1 : (("http://".data).take 4).map Char.toLower = "http".data := by decide
  have h2 : ("http://".data).drop (4 + 1) = "//".data := by decide
  rw [h1, h2]

theorem netChar_pred {c : Char} (h : netChar c = true) :
    (!(c == '/' || c == '?' || c == '#')) = true := by
  unfold netChar at h
  simp only [Bool.and_eq_true, Bool.not_eq_true', Bool.or_eq_false_iff] at h
  simp [h.2.1.1.1, h.2.1.1.2, h.2.1.2]

theorem pathChar_not_qm {c : Char} (h : pathChar c = true) : (c == '?') = false := by
  unfold pathChar at h
  simp only [Bool.and_eq_true, Bool.not_eq_true', Bool.or_eq_false_iff] at h
  exact h.2.1.1

theorem pathChar_not_hash {c : Char} (h : pathChar c = true) : (c == '#') = false := by
  unfold pathChar at h
  simp only [Bool.and_eq_true, Bool.not_eq_true', Bool.or_eq_false_iff] at h
  exact h.2.1.2

theorem pathChar_not_semi {c : Char} (h : pathChar c = true) : c ≠ ';' := by
  unfold pathChar at h
  simp only [Bool.and_eq_true, Bool.not_eq_true', Bool.or_eq_false_iff] at h
  intro he
  subst he
  simp at h

theorem queryChar_not_hash {c : Char} (h : queryChar c = true) : (c == '#') = false := by
  unfold queryChar at h
  simp only [Bool.and_eq_true, Bool.not_eq_true'] at h
  exact h.2

/-- The full-link input family of C1: an https full link with netloc `n`,
path `p`, and query `q`. -/
def fullLinkInput (n p q : List Char) : List Char :=
  "https://".data ++ (n ++ (p ++ ('?' :: q)))

theorem fullLinkInput_plain {n p q : List Char}
    (hn : ∀ c ∈ n, netChar c = true)
    (hp : ∀ c ∈ p, pathChar c = true)
    (hq : ∀ c ∈ q, queryChar c = true) :
    ∀ c ∈ fullLinkInput n p q, plainChar c = true := by
  intro c hc
  unfold fullLinkInput at hc
  rcases List.mem_append.mp hc with hlit | hrest
  · exact (by decide : ∀ x ∈ "https://".data, plainChar x = true) c hlit
  · rcases List.mem_append.mp hrest with hn' | hrest2
    · exact netChar_plain (hn c hn')
    · rcases List.mem_append.mp hrest2 with hp' | hq2
      · exact pathChar_plain (hp c hp')
      · rcases List.mem_cons.mp hq2 with rfl | hq'
        · decide
        · exact queryChar_plain (hq c hq')

theorem urlsplit_family (n p q : List Char)
    (hn : ∀ c ∈ n, netChar c = true)
    (hp : ∀ c ∈ p, pathChar c = true)
    (hp0 : p = [] ∨ p.head? = some '/')
    (hq : ∀ c ∈ q, queryChar c = true) :
    urlsplit (fullLinkInput n p q) = .ok ⟨"https".data, n, p, q, []⟩ := by
  have hplain := fullLinkInput_plain hn hp hq
  have hru : removeUnsafe (fullLinkInput n p q) = fullLinkInput n p q :=
    List.filter_eq_self.mpr (fun c hc => plainChar_keep (hplain c hc))
  have hfr : splitOnFirst '#' (p ++ ('?' :: q)) = (p ++ ('?' :: q), []) := by
    unfold splitOnFirst
    dsimp only
    have htw : (p ++ ('?' :: q)).takeWhile (fun c => !(c == '#')) = p ++ ('?' :: q) := by
      apply takeWhile_eq_self_of_all
      intro c hc
      rcases List.mem_append.mp hc with hcp | hcq
      · simp [pathChar_not_hash (hp c hcp)]
      · rcases List.mem_cons.mp hcq with rfl | hcq'
        · decide
        · simp [queryChar_not_hash (hq c hcq')]
    rw [htw, List.drop_length]
    rfl
  have hqu : splitOnFirst '?' (p ++ ('?' :: q)) = (p, q) := by
    unfold splitOnFirst
    dsimp only
    have htw : (p ++ ('?' :: q)).takeWhile (fun c => !(c == '?')) = p := by
      apply takeWhile_stop
      · intro c hc
        simp [pathChar_not_qm (hp c hc)]
      · intro c hc
        have h' : '?' = c := Option.some.inj hc
        rw [← h']
        decide
    rw [htw, List.drop_left]
    rfl
  have hnetloc : splitNetloc ("//".data ++ (n ++ (p ++ ('?' :: q)))) = (n, p ++ ('?' :: q)) := by
    unfold splitNetloc
    dsimp only
    have hd2 : ("//".data ++ (n ++ (p ++ ('?' :: q)))).drop 2 = n ++ (p ++ ('?' :: q)) := by
      rw [drop_append_of_le (by decide)]
      rfl
    rw [hd2]
    have htw : (n ++ (p ++ ('?' :: q))).takeWhile
        (fun c => !(c == '/' || c == '?' || c == '#')) = n := by
      apply takeWhile_stop
      · intro c hc
        exact netChar_pred (hn c hc)
      · intro c hc
        rcases hp0 with rfl | hph
        · have h' : '?' = c := Option.some.inj hc
          rw [← h']
          decide
        · cases p with
          | nil => exact absurd hph (by simp)
          | cons a p' =>
            have h' : a = c := Option.some.inj hc
            have ha : a = '/' := Option.some.inj hph
            rw [← h', ha]
            decide
    rw [htw, List.drop_left]
  unfold urlsplit
  dsimp only
  rw [hru]
  unfold fullLinkInput
  rw [splitScheme_https]
  dsimp only
  have ht2 : ("//".data ++ (n ++ (p ++ ('?' :: q)))).take 2 = "//".data :=
    take_append_of_le (by decide)
  rw [if_pos ht2, hnetloc]
  dsimp only
  have hbr : ¬ (('[' ∈ n ∧ ']' ∉ n) ∨ (']' ∈ n ∧ '[' ∉ n)) := by
    rintro (⟨hin, -⟩ | ⟨hin, -⟩)
    · exact absurd (hn _ hin) (by decide)
    · exact absurd (hn _ hin) (by decide)
  rw [if_neg hbr, hfr]
  dsimp only
  rw [hqu]

theorem urlparse_family (n p q : List Char)
    (hn : ∀ c ∈ n, netChar c = true)
    (hp : ∀ c ∈ p, pathChar c = true)
    (hp0 : p = [] ∨ p.head? = some '/')
    (hq : ∀ c ∈ q, queryChar c = true) :
    urlparse (fullLinkInput n p q) = .ok ⟨"https".data, n, p, q, []⟩ := by
  have hsemi : p.contains ';' = false :=
    contains_eq_false_of_all (fun c hc => pathChar_not_semi (hp c hc))
  unfold urlparse
  rw [urlsplit_family n p q hn hp hp0 hq]
  dsimp only
  simp only [Except.ok.injEq]
  simp [hsemi]
  intro _ hsc
  have hct : p.contains ';' = true := List.elem_eq_true_of_mem hsc
  rw [hsemi] at hct
  exact absurd hct (by decide)

/-! ## C1: canonicalization of full links carrying a `hash` parameter -/

/-- C1 (amended): for every full https link — netloc `n` containing
`disk.yandex.ru`, path `p`, query `q`, all over the plain URL alphabets,
not matching the short-link pattern — whose query yields a first `hash`
value `v` under `parse_qs` (which form-decodes: `+` to space, then
percent-decode), `normalize_url` returns the canonical
`https://disk.yandex.ru/public/?hash=<w>` where `w` is `v` percent-decoded
once more by the explicit `unquote` call.  (The claim's single
percent-decode of the raw value is refuted by
`normalize_url_double_decode`.) -/
theorem normalize_url_full_link (n p q v : List Char)
    (hn : ∀ c ∈ n, netChar c = true)
    (hp : ∀ c ∈ p, pathChar c = true)
    (hp0 : p = [] ∨ p.head? = some '/')
    (hq : ∀ c ∈ q, queryChar c = true)
    (hshort : matchShort (fullLinkInput n p q) = false)
    (hdom : "disk.yandex.ru".data <:+: n)
    (hhash : firstParamValue "hash".data (parse_qsl q) = some v) :
    normalize_url (fullLinkInput n p q) = .ok (canonicalHashStem ++ unquote v) := by
  have hplain := fullLinkInput_plain hn hp hq
  have hstrip : pyStrip (fullLinkInput n p q) = fullLinkInput n p q :=
    pyStrip_eq_self (fun c hc => plainChar_not_space (hplain c hc))
  have hne : fullLinkInput n p q ≠ [] := by
    unfold fullLinkInput
    intro h
    have hlen := congrArg List.length h
    simp [List.length_append] at hlen
  have hhttp : ("http".data).isPrefixOf (fullLinkInput n p q) = true := by
    rw [List.isPrefixOf_iff_prefix]
    unfold fullLinkInput
    exact (by decide : "http".data <+: "https://".data).trans (List.prefix_append _ _)
  unfold normalize_url
  dsimp only
  rw [hstrip]
  rw [if_neg (by rw [isEmpty_false_of_ne hne]; decide)]
  rw [if_neg (by rw [hshort]; decide)]
  rw [if_pos hhttp]
  rw [urlparse_family n p q hn hp hp0 hq]
  dsimp only
  rw [if_pos hdom, hhash]

/-- C1 counterexample: the hash value is decoded twice (`parse_qs`
form-decodes it, then `unquote` percent-decodes it again), so for the
full link `.../?hash=x%2525` the emitted value is `x%`, not the single
percent-decode `x%25` of the raw parameter value. -/
theorem normalize_url_double_decode :
    normalize_url "https://disk.yandex.ru/public/?hash=x%2525".data =
      .ok (canonicalHashStem ++ "x%".data) ∧
    firstParamValue "hash".data (parse_qsl "hash=x%2525".data) = some "x%25".data ∧
    unquote "x%2525".data = "x%25".data ∧
    canonicalHashStem ++ "x%".data ≠ canonicalHashStem ++ "x%25".data :=
  ⟨by decide, by decide, by decide, by decide⟩

/-- C1 witness: a concrete full link with an extra query parameter. -/
theorem normalize_url_full_link_witness :
    matchShort (fullLinkInput "disk.yandex.ru".data "/public/".data "a=1&hash=abc".data) =
      false ∧
    firstParamValue "hash".data (parse_qsl "a=1&hash=abc".data) = some "abc".data ∧
    normalize_url (fullLinkInput "disk.yandex.ru".data "/public/".data "a=1&hash=abc".data) =
      .ok (canonicalHashStem ++ unquote "abc".data) :=
  ⟨by decide, by decide,
   normalize_url_full_link "disk.yandex.ru".data "/public/".data "a=1&hash=abc".data
     "abc".data (by decide) (by decide) (by decide) (by decide) (by decide) (by decide)
     (by decide)⟩

/-! ## C2: pass-through of short links and bare hashes -/

theorem matchShort_http {s : List Char} (h : matchShort s = true) :
    ("http".data).isPrefixOf s = true := by
  unfold matchShort at h
  rw [List.isPrefixOf_iff_prefix]
  by_cases h1 : shortHttps.isPrefixOf s
  · exact (by decide : "http".data <+: shortHttps).trans (List.isPrefixOf_iff_prefix.mp h1)
  · rw [if_neg h1] at h
    by_cases h2 : shortHttp.isPrefixOf s
    · exact (by decide : "http".data <+: shortHttp).trans (List.isPrefixOf_iff_prefix.mp h2)
    · rw [if_neg h2] at h
      exact absurd h (by decide)

theorem matchShort_implies_loose {s : List Char} (h : matchShort s = true) :
    matchShortLoose s = true := by
  unfold matchShort at h
  unfold matchShortLoose
  by_cases h1 : shortHttps.isPrefixOf s
  · simp [h1]
  · rw [if_neg h1] at h
    by_cases h2 : shortHttp.isPrefixOf s
    · simp [h2]
    · rw [if_neg h2] at h
      exact absurd h (by decide)

/-- The short-link input family of C2: one of the two scheme spellings
followed by a token. -/
def shortLinkInput (secure : Bool) (t : List Char) : List Char :=
  (bif secure then shortHttps else shortHttp) ++ t

/-- C2: `normalize_url` is the identity on each valid short link
`http(s)://disk.yandex.ru/d/<token>` with a non-empty token over
`[A-Za-z0-9-]`, and on each bare-hash string `a ++ b` (`a` non-empty over
`[A-Za-z0-9+/]`, `b` all `=`) that does not start with `http`. -/
theorem normalize_url_passthrough :
    (∀ (secure : Bool) (t : List Char), t ≠ [] → (∀ c ∈ t, tokenChar c = true) →
      normalize_url (shortLinkInput secure t) = .ok (shortLinkInput secure t)) ∧
    (∀ a b : List Char, a ≠ [] → (∀ c ∈ a, b64Char c = true) → (∀ c ∈ b, c = '=') →
      ("http".data).isPrefixOf (a ++ b) = false →
      normalize_url (a ++ b) = .ok (a ++ b)) := by
  constructor
  · intro secure t ht htk
    have hplain : ∀ c ∈ shortLinkInput secure t, plainChar c = true := by
      intro c hc
      unfold shortLinkInput at hc
      rcases List.mem_append.mp hc with hlit | hct
      · cases secure
        · exact (by decide : ∀ x ∈ shortHttp, plainChar x = true) c hlit
        · exact (by decide : ∀ x ∈ shortHttps, plainChar x = true) c hlit
      · exact tokenChar_plain (htk c hct)
    have hstrip : pyStrip (shortLinkInput secure t) = shortLinkInput secure t :=
      pyStrip_eq_self (fun c hc => plainChar_not_space (hplain c hc))
    have hne : shortLinkInput secure t ≠ [] := by
      unfold shortLinkInput
      cases secure <;> intro h <;>
        (have hlen := congrArg List.length h; simp [List.length_append] at hlen;
         exact absurd hlen.1 (by decide))
    have hms : matchShort (shortLinkInput secure t) = true := by
      unfold matchShort shortLinkInput
      cases secure
      · have hnp : shortHttps.isPrefixOf (shortHttp ++ t) = false := by
          cases hv : shortHttps.isPrefixOf (shortHttp ++ t)
          · rfl
          · exfalso
            obtain ⟨u, hu⟩ := List.isPrefixOf_iff_prefix.mp hv
            have h5 := congrArg (List.take 5) hu
            rw [take_append_of_le (by decide), take_append_of_le (by decide)] at h5
            exact absurd h5 (by decide)
        rw [cond_false, if_neg (by rw [hnp]; decide)]
        rw [if_pos (List.isPrefixOf_iff_prefix.mpr (List.prefix_append _ _))]
        have hd : (shortHttp ++ t).drop 24 = t := by
          have h24 : shortHttp.length = 24 := by decide
          rw [← h24, List.drop_left]
        rw [hd]
        cases t with
        | nil => exact absurd rfl ht
        | cons c t' => exact htk c (List.mem_cons_self c t')
      · rw [cond_true, if_pos (List.isPrefixOf_iff_prefix.mpr (List.prefix_append _ _))]
        have hd : (shortHttps ++ t).drop 25 = t := by
          have h25 : shortHttps.length = 25 := by decide
          rw [← h25, List.drop_left]
        rw [hd]
        cases t with
        | nil => exact absurd rfl ht
        | cons c t' => exact htk c (List.mem_cons_self c t')
    unfold normalize_url
    dsimp only
    rw [hstrip]
    rw [if_neg (by rw [isEmpty_false_of_ne hne]; decide)]
    rw [if_pos hms]
  · intro a b ha hab hbe hhttp
    have hplain : ∀ c ∈ a ++ b, plainChar c = true := by
      intro c hc
      rcases List.mem_append.mp hc with h | h
      · exact b64Char_plain (hab c h)
      · rw [hbe c h]
        decide
    have hstrip : pyStrip (a ++ b) = a ++ b :=
      pyStrip_eq_self (fun c hc => plainChar_not_space (hplain c hc))
    have hne : a ++ b ≠ [] := by
      cases a with
      | nil => exact absurd rfl ha
      | cons c a' => simp
    have hms : matchShort (a ++ b) = false := by
      cases hv : matchShort (a ++ b)
      · rfl
      · exfalso
        have hpf := matchShort_http hv
        rw [hhttp] at hpf
        exact absurd hpf (by decide)
    have hhp : matchHashPattern (a ++ b) = true := by
      unfold matchHashPattern
      dsimp only
      have htw : (a ++ b).takeWhile b64Char = a := by
        apply takeWhile_stop hab
        intro c hc
        cases b with
        | nil => simp at hc
        | cons d b' =>
          have hdc : d = c := Option.some.inj hc
          have hde : d = '=' := hbe d (List.mem_cons_self d b')
          rw [← hdc, hde]
          decide
      rw [htw, List.drop_left, isEmpty_false_of_ne ha]
      simp only [Bool.not_false, Bool.true_and]
      rw [List.all_eq_true]
      intro c hc
      rw [hbe c hc]
      decide
    unfold normalize_url
    dsimp only
    rw [hstrip]
    rw [if_neg (by rw [isEmpty_false_of_ne hne]; decide)]
    rw [if_neg (by rw [hms]; decide)]
    rw [if_neg (by rw [hhttp]; decide)]
    rw [if_pos hhp]

/-- C2 witness: a concrete short link and a concrete padded bare hash. -/
theorem normalize_url_passthrough_witness :
    normalize_url (shortLinkInput true "446d6f44-bb36".data) =
      .ok (shortLinkInput true "446d6f44-bb36".data) ∧
    normalize_url ("dAEMkc1Q+/".data ++ "==".data) = .ok ("dAEMkc1Q+/".data ++ "==".data) :=
  ⟨normalize_url_passthrough.1 true "446d6f44-bb36".data (by decide) (by decide),
   normalize_url_passthrough.2 "dAEMkc1Q+/".data "==".data (by decide) (by decide)
     (by decide) (by decide)⟩

/-! ## C10: the diagnostic classifier versus `normalize_url` -/

theorem loose_http {s : List Char} (h : matchShortLoose s = true) :
    ("http".data).isPrefixOf s = true := by
  unfold matchShortLoose at h
  rw [Bool.or_eq_true] at h
  rw [List.isPrefixOf_iff_prefix]
  rcases h with h | h
  · exact (by decide : "http".data <+: shortHttps).trans (List.isPrefixOf_iff_prefix.mp h)
  · exact (by decide : "http".data <+: shortHttp).trans (List.isPrefixOf_iff_prefix.mp h)

theorem splitOnFirst_cons_pass {sep c : Char} (l : List Char) (h : (c == sep) = false) :
    splitOnFirst sep (c :: l) = (c :: (splitOnFirst sep l).1, (splitOnFirst sep l).2) := by
  unfold splitOnFirst
  dsimp only
  rw [List.takeWhile_cons]
  rw [if_pos (by rw [h]; decide)]
  rw [List.length_cons, List.drop_succ_cons]

theorem dslash_infix_splitparams (g : List Char) :
    "/d/".data <:+: splitparamsPath ('/' :: 'd' :: '/' :: g) := by
  have hpre : "/d/".data <+: ('/' :: 'd' :: '/' :: g) := ⟨g, rfl⟩
  unfold splitparamsPath
  rw [if_pos (List.elem_eq_true_of_mem (by simp : '/' ∈ ('/' :: 'd' :: '/' :: g)))]
  dsimp only
  have hmem : '/' ∈ ('/' :: 'd' :: '/' :: g).reverse := List.mem_reverse.mpr (by simp)
  have hrilt : ('/' :: 'd' :: '/' :: g).reverse.findIdx (fun c => c == '/') <
      ('/' :: 'd' :: '/' :: g).reverse.length := findIdx_lt_of_mem hmem (by decide)
  have hrev : ('/' :: 'd' :: '/' :: g).reverse = g.reverse ++ ['/', 'd', '/'] := by
    simp
  have hglen : ('/' :: 'd' :: '/' :: g).length = g.length + 3 := by simp
  have hrevlen : ('/' :: 'd' :: '/' :: g).reverse.length = g.length + 3 := by
    rw [List.length_reverse, hglen]
  have hub : ('/' :: 'd' :: '/' :: g).reverse.findIdx (fun c => c == '/') ≤ g.length := by
    have hle := findIdx_append_le (fun c => c == '/') g.reverse ['/', 'd', '/']
    rw [← hrev] at hle
    have hz : (['/', 'd', '/'] : List Char).findIdx (fun c => c == '/') = 0 := by decide
    rw [hz, List.length_reverse] at hle
    omega
  have hjlt : ('/' :: 'd' :: '/' :: g).length - 1 -
      ('/' :: 'd' :: '/' :: g).reverse.findIdx (fun c => c == '/') <
      ('/' :: 'd' :: '/' :: g).length := by omega
  have hpj : getElem ('/' :: 'd' :: '/' :: g)
      (('/' :: 'd' :: '/' :: g).length - 1 -
        ('/' :: 'd' :: '/' :: g).reverse.findIdx (fun c => c == '/')) hjlt = '/' := by
    have hfound := findIdx_found (fun c => c == '/') ('/' :: 'd' :: '/' :: g).reverse hrilt
    rw [List.get_eq_getElem, List.getElem_reverse] at hfound
    exact eq_of_beq hfound
  have hdropj : ('/' :: 'd' :: '/' :: g).drop
        (('/' :: 'd' :: '/' :: g).length - 1 -
          ('/' :: 'd' :: '/' :: g).reverse.findIdx (fun c => c == '/')) =
      '/' :: ('/' :: 'd' :: '/' :: g).drop
        (('/' :: 'd' :: '/' :: g).length - 1 -
          ('/' :: 'd' :: '/' :: g).reverse.findIdx (fun c => c == '/') + 1) := by
    have hstep := List.drop_eq_getElem_cons (l := ('/' :: 'd' :: '/' :: g)) hjlt
    rw [hpj] at hstep
    exact hstep
  have hk : 1 ≤ (('/' :: 'd' :: '/' :: g).drop
      (('/' :: 'd' :: '/' :: g).length - 1 -
        ('/' :: 'd' :: '/' :: g).reverse.findIdx (fun c => c == '/'))).findIdx
      (fun c => c == ';') := by
    rw [hdropj, List.findIdx_cons]
    simp
  by_cases hklt : (('/' :: 'd' :: '/' :: g).drop
        (('/' :: 'd' :: '/' :: g).length - 1 -
          ('/' :: 'd' :: '/' :: g).reverse.findIdx (fun c => c == '/'))).findIdx
        (fun c => c == ';') <
      (('/' :: 'd' :: '/' :: g).drop
        (('/' :: 'd' :: '/' :: g).length - 1 -
          ('/' :: 'd' :: '/' :: g).reverse.findIdx (fun c => c == '/'))).length
  · rw [if_pos hklt]
    have h3 : 3 ≤ ('/' :: 'd' :: '/' :: g).length - 1 -
        ('/' :: 'd' :: '/' :: g).reverse.findIdx (fun c => c == '/') +
        (('/' :: 'd' :: '/' :: g).drop
          (('/' :: 'd' :: '/' :: g).length - 1 -
            ('/' :: 'd' :: '/' :: g).reverse.findIdx (fun c => c == '/'))).findIdx
        (fun c => c == ';') := by omega
    obtain ⟨m, hm⟩ := Nat.exists_eq_add_of_le h3
    rw [hm]
    have htake : ('/' :: 'd' :: '/' :: g).take (3 + m) = '/' :: 'd' :: '/' :: g.take m := by
      rw [show 3 + m = (m + 2) + 1 from by omega]
      rw [List.take_succ_cons]
      rw [show m + 2 = (m + 1) + 1 from by omega]
      rw [List.take_succ_cons]
      rw [show m + 1 = m + 1 from rfl]
      rw [List.take_succ_cons]
    rw [htake]
    exact List.IsPrefix.isInfix ⟨g.take m, rfl⟩
  · rw [if_neg hklt]
    exact hpre.isInfix

theorem urlsplit_dslash (secure : Bool) (fr : List Char) :
    ∃ g qy fg, urlsplit ((bif secure then shortHttps else shortHttp) ++ fr) =
      .ok ⟨(bif secure then "https".data else "http".data), "disk.yandex.ru".data,
           '/' :: 'd' :: '/' :: g, qy, fg⟩ := by
  have hnet : splitNetloc ("//".data ++ ("disk.yandex.ru/d/".data ++ removeUnsafe fr)) =
      ("disk.yandex.ru".data, '/' :: 'd' :: '/' :: removeUnsafe fr) := by
    unfold splitNetloc
    dsimp only
    rw [drop_append_of_le (by decide)]
    rw [show ("//".data).drop 2 ++ ("disk.yandex.ru/d/".data ++ removeUnsafe fr) =
        "disk.yandex.ru".data ++ ('/' :: 'd' :: '/' :: removeUnsafe fr) from by
      rw [show ("//".data).drop 2 = ([] : List Char) from by decide, List.nil_append,
        show "disk.yandex.ru/d/".data = "disk.yandex.ru".data ++ ['/', 'd', '/'] from by decide,
        List.append_assoc]
      rfl]
    rw [takeWhile_stop (by decide) (fun c hc => by rw [← Option.some.inj hc]; decide)]
    rw [List.drop_left]
  have hbr : ¬ (('[' ∈ "disk.yandex.ru".data ∧ ']' ∉ "disk.yandex.ru".data) ∨
      (']' ∈ "disk.yandex.ru".data ∧ '[' ∉ "disk.yandex.ru".data)) := by decide
  have hsp1 : splitOnFirst '#' ('/' :: 'd' :: '/' :: removeUnsafe fr) =
      ('/' :: 'd' :: '/' :: (splitOnFirst '#' (removeUnsafe fr)).1,
       (splitOnFirst '#' (removeUnsafe fr)).2) := by
    rw [splitOnFirst_cons_pass _ (by decide), splitOnFirst_cons_pass _ (by decide),
      splitOnFirst_cons_pass _ (by decide)]
  have hsp2 : splitOnFirst '?' ('/' :: 'd' :: '/' :: (splitOnFirst '#' (removeUnsafe fr)).1) =
      ('/' :: 'd' :: '/' :: (splitOnFirst '?' ((splitOnFirst '#' (removeUnsafe fr)).1)).1,
       (splitOnFirst '?' ((splitOnFirst '#' (removeUnsafe fr)).1)).2) := by
    rw [splitOnFirst_cons_pass _ (by decide), splitOnFirst_cons_pass _ (by decide),
      splitOnFirst_cons_pass _ (by decide)]
  cases secure
  · refine ⟨(splitOnFirst '?' ((splitOnFirst '#' (removeUnsafe fr)).1)).1,
      (splitOnFirst '?' ((splitOnFirst '#' (removeUnsafe fr)).1)).2,
      (splitOnFirst '#' (removeUnsafe fr)).2, ?_⟩
    show urlsplit (shortHttp ++ fr) = _
    unfold urlsplit
    dsimp only
    rw [show removeUnsafe (shortHttp ++ fr) = shortHttp ++ removeUnsafe fr from by
      unfold removeUnsafe
      rw [List.filter_append]
      congr 1]
    rw [show shortHttp ++ removeUnsafe fr =
        "http://".data ++ ("disk.yandex.ru/d/".data ++ removeUnsafe fr) from by
      rw [show shortHttp = "http://".data ++ "disk.yandex.ru/d/".data from by decide,
        List.append_assoc]]
    rw [splitScheme_http]
    dsimp only
    rw [if_pos (by rw [take_append_of_le (by decide)]; decide)]
    rw [hnet]
    dsimp only
    rw [if_neg hbr, hsp1]
    dsimp only
    rw [hsp2]
    rfl
  · refine ⟨(splitOnFirst '?' ((splitOnFirst '#' (removeUnsafe fr)).1)).1,
      (splitOnFirst '?' ((splitOnFirst '#' (removeUnsafe fr)).1)).2,
      (splitOnFirst '#' (removeUnsafe fr)).2, ?_⟩
    show urlsplit (shortHttps ++ fr) = _
    unfold urlsplit
    dsimp only
    rw [show removeUnsafe (shortHttps ++ fr) = shortHttps ++ removeUnsafe fr from by
      unfold removeUnsafe
      rw [List.filter_append]
      congr 1]
    rw [show shortHttps ++ removeUnsafe fr =
        "https://".data ++ ("disk.yandex.ru/d/".data ++ removeUnsafe fr) from by
      rw [show shortHttps = "https://".data ++ "disk.yandex.ru/d/".data from by decide,
        List.append_assoc]]
    rw [splitScheme_https]
    dsimp only
    rw [if_pos (by rw [take_append_of_le (by decide)]; decide)]
    rw [hnet]
    dsimp only
    rw [if_neg hbr, hsp1]
    dsimp only
    rw [hsp2]
    rfl

theorem normalize_ok_of_loose {s : List Char} (hl : matchShortLoose (pyStrip s) = true) :
    (normalize_url s).isOk = true := by
  have hne : pyStrip s ≠ [] := by
    intro he
    rw [he] at hl
    exact absurd hl (by decide)
  by_cases hm : matchShort (pyStrip s) = true
  · unfold normalize_url
    dsimp only
    rw [if_neg (by rw [isEmpty_false_of_ne hne]; decide), if_pos hm]
    rfl
  · have hmf : matchShort (pyStrip s) = false := by
      cases hv : matchShort (pyStrip s)
      · rfl
      · exact absurd hv hm
    have hhttp : ("http".data).isPrefixOf (pyStrip s) = true := loose_http hl
    unfold matchShortLoose at hl
    rw [Bool.or_eq_true] at hl
    obtain ⟨secure, hsec⟩ : ∃ b : Bool,
        ((bif b then shortHttps else shortHttp)).isPrefixOf (pyStrip s) = true := by
      rcases hl with h | h
      · exact ⟨true, h⟩
      · exact ⟨false, h⟩
    obtain ⟨fr, hfr⟩ := List.isPrefixOf_iff_prefix.mp hsec
    obtain ⟨g, qy, fg, hsplit⟩ := urlsplit_dslash secure fr
    rw [hfr] at hsplit
    have hparse : ∃ PATH, urlparse (pyStrip s) =
        .ok ⟨(bif secure then "https".data else "http".data), "disk.yandex.ru".data,
             PATH, qy, fg⟩ ∧ "/d/".data <:+: PATH := by
      unfold urlparse
      rw [hsplit]
      dsimp only
      refine ⟨_, rfl, ?_⟩
      by_cases hsc : (usesParams.contains (bif secure then "https".data else "http".data) &&
          (('/' :: 'd' :: '/' :: g).contains ';')) = true
      · rw [if_pos hsc]
        exact dslash_infix_splitparams g
      · rw [if_neg hsc]
        exact List.IsPrefix.isInfix ⟨g, rfl⟩
    obtain ⟨PATH, hparse, hinf⟩ := hparse
    unfold normalize_url
    dsimp only
    rw [if_neg (by rw [isEmpty_false_of_ne hne]; decide), if_neg (by rw [hmf]; decide),
      if_pos hhttp, hparse]
    dsimp only
    rw [if_pos (List.infix_refl "disk.yandex.ru".data)]
    cases hv : firstParamValue "hash".data (parse_qsl qy) with
    | some v => rfl
    | none =>
      dsimp only
      rw [if_pos hinf]
      rfl

/-- C10 (amended): on ASCII input containing no square bracket the
classifier returns one of the four labels without raising (outside that
region it can raise `ValueError` from `urlsplit`: `http://[a` via the
IPv6-bracket check, and non-ASCII netlocs such as `http://℀` via the
NFKC netloc check, so the proviso matches the one of
`normalize_url_error_classification`); labels `short` and `full`
guarantee that `normalize_url` succeeds, and so does `hash` when the
input has no `http` prefix.  The claimed equivalence with
`normalize_url`'s success is refuted by `get_url_type_mismatch_example`. -/
theorem get_url_type_spec : ∀ s : List Char,
    ((∀ c ∈ s, c.toNat < 128) → '[' ∉ s → ']' ∉ s →
      (get_url_type s = .ok "short".data ∨ get_url_type s = .ok "full".data ∨
       get_url_type s = .ok "hash".data ∨ get_url_type s = .ok "unknown".data)) ∧
    (get_url_type s = .ok "short".data → (normalize_url s).isOk = true) ∧
    (get_url_type s = .ok "full".data → (normalize_url s).isOk = true) ∧
    (get_url_type s = .ok "hash".data →
      ("http".data).isPrefixOf (pyStrip s) = false → (normalize_url s).isOk = true) := by
  intro s
  by_cases hl : matchShortLoose (pyStrip s) = true
  · have hshort : get_url_type s = .ok "short".data := by
      unfold get_url_type
      dsimp only
      rw [if_pos hl]
    refine ⟨fun _ _ _ => Or.inl hshort, fun _ => normalize_ok_of_loose hl, ?_, ?_⟩
    · intro h
      rw [hshort] at h
      exact absurd h (by decide)
    · intro h _
      rw [hshort] at h
      exact absurd h (by decide)
  · have hlf : matchShortLoose (pyStrip s) = false := by
      cases hv : matchShortLoose (pyStrip s)
      · rfl
      · exact absurd hv hl
    have hmf : matchShort (pyStrip s) = false := by
      cases hv : matchShort (pyStrip s)
      · rfl
      · exact absurd (matchShort_implies_loose hv) hl
    by_cases hh : ("http".data).isPrefixOf (pyStrip s) = true
    · cases hu : urlparse (pyStrip s) with
      | error e =>
        have h1 : ∀ lbl : List Char, get_url_type s ≠ .ok lbl := by
          intro lbl h
          unfold get_url_type at h
          dsimp only at h
          rw [if_neg (by rw [hlf]; decide), if_pos hh, hu] at h
          dsimp only at h
          simp at h
        refine ⟨?_, ?_, ?_, ?_⟩
        · intro _ hb1 hb2
          exfalso
          obtain ⟨r, hr⟩ := urlparse_ok_of_no_brackets
            (fun hc => hb1 (mem_pyStrip hc)) (fun hc => hb2 (mem_pyStrip hc))
          rw [hu] at hr
          exact Except.noConfusion hr
        · intro h
          exact absurd h (h1 _)
        · intro h
          exact absurd h (h1 _)
        · intro h _
          exact absurd h (h1 _)
      | ok parsed =>
        by_cases hb : (decide ("disk.yandex.ru".data <:+: parsed.netloc) &&
            (firstParamValue "hash".data (parse_qsl parsed.query)).isSome) = true
        · have hfull : get_url_type s = .ok "full".data := by
            unfold get_url_type
            dsimp only
            rw [if_neg (by rw [hlf]; decide), if_pos hh, hu]
            dsimp only
            rw [hb]
          have hok : (normalize_url s).isOk = true := by
            rw [Bool.and_eq_true] at hb
            have hdom : "disk.yandex.ru".data <:+: parsed.netloc := of_decide_eq_true hb.1
            obtain ⟨v, hv⟩ := Option.isSome_iff_exists.mp hb.2
            have hne : pyStrip s ≠ [] := by
              intro he
              rw [he] at hh
              exact absurd hh (by decide)
            unfold normalize_url
            dsimp only
            rw [if_neg (by rw [isEmpty_false_of_ne hne]; decide),
              if_neg (by rw [hmf]; decide), if_pos hh, hu]
            dsimp only
            rw [if_pos hdom, hv]
            rfl
          refine ⟨fun _ _ _ => Or.inr (Or.inl hfull), ?_, fun _ => hok, ?_⟩
          · intro h
            rw [hfull] at h
            exact absurd h (by decide)
          · intro h _
            rw [hfull] at h
            exact absurd h (by decide)
        · have hbf : (decide ("disk.yandex.ru".data <:+: parsed.netloc) &&
              (firstParamValue "hash".data (parse_qsl parsed.query)).isSome) = false := by
            cases hv : (decide ("disk.yandex.ru".data <:+: parsed.netloc) &&
                (firstParamValue "hash".data (parse_qsl parsed.query)).isSome)
            · rfl
            · exact absurd hv hb
          have hg : get_url_type s =
              (if matchHashPattern (pyStrip s) = true then .ok "hash".data
               else .ok "unknown".data) := by
            unfold get_url_type
            dsimp only
            rw [if_neg (by rw [hlf]; decide), if_pos hh, hu]
            dsimp only
            rw [hbf]
          refine ⟨?_, ?_, ?_, ?_⟩
          · intro _ _ _
            rw [hg]
            by_cases hp : matchHashPattern (pyStrip s) = true
            · rw [if_pos hp]
              exact Or.inr (Or.inr (Or.inl rfl))
            · rw [if_neg hp]
              exact Or.inr (Or.inr (Or.inr rfl))
          · intro h
            rw [hg] at h
            by_cases hp : matchHashPattern (pyStrip s) = true
            · rw [if_pos hp] at h
              exact absurd h (by decide)
            · rw [if_neg hp] at h
              exact absurd h (by decide)
          · intro h
            rw [hg] at h
            by_cases hp : matchHashPattern (pyStrip s) = true
            · rw [if_pos hp] at h
              exact absurd h (by decide)
            · rw [if_neg hp] at h
              exact absurd h (by decide)
          · intro _ hhf
            rw [hh] at hhf
            exact absurd hhf (by decide)
    · have hhf : ("http".data).isPrefixOf (pyStrip s) = false := by
        cases hv : ("http".data).isPrefixOf (pyStrip s)
        · rfl
        · exact absurd hv hh
      have hg : get_url_type s =
          (if matchHashPattern (pyStrip s) = true then .ok "hash".data
           else .ok "unknown".data) := by
        unfold get_url_type
        dsimp only
        rw [if_neg (by rw [hlf]; decide), if_neg (by rw [hhf]; decide)]
      refine ⟨?_, ?_, ?_, ?_⟩
      · intro _ _ _
        rw [hg]
        by_cases hp : matchHashPattern (pyStrip s) = true
        · rw [if_pos hp]
          exact Or.inr (Or.inr (Or.inl rfl))
        · rw [if_neg hp]
          exact Or.inr (Or.inr (Or.inr rfl))
      · intro h
        rw [hg] at h
        by_cases hp : matchHashPattern (pyStrip s) = true
        · rw [if_pos hp] at h
          exact absurd h (by decide)
        · rw [if_neg hp] at h
          exact absurd h (by decide)
      · intro h
        rw [hg] at h
        by_cases hp : matchHashPattern (pyStrip s) = true
        · rw [if_pos hp] at h
          exact absurd h (by decide)
        · rw [if_neg hp] at h
          exact absurd h (by decide)
      · intro h _
        rw [hg] at h
        by_cases hp : matchHashPattern (pyStrip s) = true
        · have hne : pyStrip s ≠ [] := by
            intro he
            rw [he] at hp
            exact absurd hp (by decide)
          unfold normalize_url
          dsimp only
          rw [if_neg (by rw [isEmpty_false_of_ne hne]; decide),
            if_neg (by rw [hmf]; decide), if_neg (by rw [hhf]; decide), if_pos hp]
          rfl
        · rw [if_neg hp] at h
          exact absurd h (by decide)

/-- C10 counterexample: the string `http` is labelled `hash` by
`get_url_type` (urlparse yields an empty netloc and the string then
matches the bare-hash pattern), yet `normalize_url` rejects it in the
http branch — so a label other than `unknown` does not imply that
normalization succeeds. -/
theorem get_url_type_mismatch_example :
    get_url_type "http".data = .ok "hash".data ∧
    normalize_url "http".data =
      .error (.parseError "URL не является ссылкой на Яндекс Диск: ".data) :=
  ⟨by decide, by decide⟩

/-- C10 witness: the classification and the implications at concrete
inputs. -/
theorem get_url_type_spec_witness :
    (get_url_type "!!".data = .ok "short".data ∨ get_url_type "!!".data = .ok "full".data ∨
     get_url_type "!!".data = .ok "hash".data ∨ get_url_type "!!".data = .ok "unknown".data) ∧
    (normalize_url "https://disk.yandex.ru/d/".data).isOk = true ∧
    (normalize_url "abc".data).isOk = true :=
  ⟨(get_url_type_spec "!!".data).1 (by decide) (by decide) (by decide),
   (get_url_type_spec "https://disk.yandex.ru/d/".data).2.1 (by decide),
   (get_url_type_spec "abc".data).2.2.2 (by decide) (by decide)⟩
